import Mathlib

/-
  Verification development for the contrast-VIF estimator
  (src/vif_contrasts.py, function est_contrast_vifs).

  Modelling conventions:
  * Input cells are `Option ℚ`; `none` models a missing value (pandas NaN).
  * Floating-point arithmetic is idealized as exact real arithmetic.
    Standardized cells are `Option ℝ`; `none` models a non-finite float
    (NaN).  All arithmetic on such cells propagates `none`, matching
    IEEE NaN propagation (in particular `0 * NaN = NaN`).
  * `np.linalg.inv` is modelled by `invRCell`.  On a finite matrix it
    raises a singular-matrix error exactly when the determinant is zero
    (in exact arithmetic LU with partial pivoting hits a zero pivot iff
    the matrix is singular), and otherwise returns the inverse.  On a
    matrix containing a NaN, LAPACK raises exactly when the pivoted
    elimination selects a pivot that is exactly 0.0 (idamax never picks
    a NaN over a finite value, and a NaN pivot is not equal to zero, so
    it does not set info); this elimination is modelled explicitly by
    `nanElimRaises`.  When no zero pivot occurs, every solve component
    meets a NaN (note `0 * NaN = NaN`), so the result is an all-NaN
    matrix returned without raising.
  * pandas semantics reproduced: `nunique` counts distinct non-missing
    values, `mean`/`std` skip missing values, `std` uses the n-1
    (Bessel) denominator, column selection keeps the row count, and the
    matrix products propagate NaN.
-/

set_option maxHeartbeats 1000000

noncomputable section

/-- A cell of the input design matrix; `none` models a missing value. -/
abbrev Cell := Option ℚ

/-- A cell of the standardized matrix; `none` models a non-finite float. -/
abbrev RCell := Option ℝ

/-- A design matrix: ordered, named numeric columns sharing row count `nrows`. -/
structure DesignMatrix where
  nrows : ℕ
  cols : List (String × List Cell)

/-- Well-formedness: every column has exactly `nrows` entries. -/
def WF (d : DesignMatrix) : Prop := ∀ p ∈ d.cols, p.2.length = d.nrows

/-- The non-missing values of a column (pandas drops NaN). -/
def valsQ (col : List Cell) : List ℚ := col.filterMap id

/-- Number of distinct non-missing values (pandas `nunique()`). -/
def nunique (col : List Cell) : ℕ := (valsQ col).dedup.length

/-- Whether the column contains a missing value (pandas `isnull().any()`). -/
def hasNull (col : List Cell) : Bool := col.any (fun c => c.isNone)

/-- Retention rule of line 19-21: keep a column iff `nunique() > 1` or it
has a missing value. -/
def retainedB (col : List Cell) : Bool := decide (1 < nunique col) || hasNull col

/-- The column-selection step `desmat_copy.loc[:, (nunique > 1) | isnull.any]`. -/
def dropConstant (d : DesignMatrix) : List (String × List Cell) :=
  d.cols.filter (fun p => retainedB p.2)

/-- Names of the retained columns, in design-matrix order. -/
def retainedNames (d : DesignMatrix) : List String := (dropConstant d).map Prod.fst

/-- Count of non-missing entries of a column. -/
def cnt (col : List Cell) : ℕ := (valsQ col).length

/-- The non-missing values of a column, as reals. -/
def valsR (col : List Cell) : List ℝ := (valsQ col).map (fun (q : ℚ) => (q : ℝ))

/-- Column mean over non-missing entries (pandas `mean()`, skipna). -/
def colMean (col : List Cell) : ℝ := (valsR col).sum / (cnt col : ℝ)

/-- Sum of squared deviations from the mean over non-missing entries. -/
def colSSD (col : List Cell) : ℝ :=
  ((valsR col).map (fun x => (x - colMean col) ^ 2)).sum

/-- The scaling divisor `(nsamp - 1) ** 0.5 * column.std()` from line 24-26,
with `std` the sample (n-1 denominator) standard deviation over non-missing
entries. -/
def stdDivisor (n : ℕ) (col : List Cell) : ℝ :=
  Real.sqrt ((n : ℝ) - 1) * Real.sqrt (colSSD col / ((cnt col : ℝ) - 1))

open Classical in
/-- Standardize one cell.  A missing cell stays NaN.  A present cell becomes
NaN when the column has at most one non-missing entry (`std` is NaN) or has
zero sample variance (`0 / 0`); otherwise it is centered and scaled. -/
def stdCell (n : ℕ) (col : List Cell) : Cell → RCell
  | none => none
  | some x =>
      if cnt col ≤ 1 ∨ colSSD col = 0 then none
      else some (((x : ℝ) - colMean col) / stdDivisor n col)

/-- Standardize a whole column. -/
def stdCol (n : ℕ) (col : List Cell) : List RCell := col.map (stdCell n col)

/-- The preprocessing of lines 17-26: drop constant no-missing columns, then
center and scale every retained column. -/
def standardize (d : DesignMatrix) : List (String × List RCell) :=
  (dropConstant d).map (fun p => (p.1, stdCol d.nrows p.2))

/-- NaN-propagating addition. -/
def rAdd : RCell → RCell → RCell
  | some a, some b => some (a + b)
  | _, _ => none

/-- NaN-propagating multiplication (note `0 * NaN = NaN`, as for floats). -/
def rMul : RCell → RCell → RCell
  | some a, some b => some (a * b)
  | _, _ => none

open Classical in
/-- NaN-propagating division; division by zero yields a non-finite float. -/
def rDiv : RCell → RCell → RCell
  | some a, some b => if b = 0 then none else some (a / b)
  | _, _ => none

/-- NaN-propagating sum of a list. -/
def rSum (l : List RCell) : RCell := l.foldr rAdd (some 0)

/-- NaN-propagating dot product of two columns. -/
def dotCells (u v : List RCell) : RCell := rSum (List.zipWith rMul u v)

/-- The cross-product matrix `X.T @ X` of line 34/42 (NaN propagates). -/
def gram (cols : List (List RCell)) : List (List RCell) :=
  cols.map (fun u => cols.map (fun v => dotCells u v))

/-- `np.multiply(G, np.identity(p))` of lines 41-44: multiply each entry by
1 on the diagonal and 0 off it.  Note `NaN * 0 = NaN`. -/
def zeroOffDiag (g : List (List RCell)) : List (List RCell) :=
  List.zipWith
    (fun i row =>
      List.zipWith (fun j x => rMul x (some (if i = j then (1 : ℝ) else 0)))
        (List.range row.length) row)
    (List.range g.length) g

/-- Determinant of a square list matrix by Laplace expansion along the
first row. -/
def detL : List (List ℝ) → ℝ
  | [] => 1
  | r :: rs =>
      ((r.zip (List.range r.length)).map
        (fun aj => (-1 : ℝ) ^ aj.2 * aj.1 *
          detL (rs.map (fun row => row.eraseIdx aj.2)))).sum
termination_by g => g.length
decreasing_by simp

/-- Minor of a list matrix: delete row `i` and column `j`. -/
def minorL (m : List (List ℝ)) (i j : ℕ) : List (List ℝ) :=
  (m.eraseIdx i).map (fun row => row.eraseIdx j)

/-- Inverse of a square list matrix via the adjugate formula. -/
def invL (m : List (List ℝ)) : List (List ℝ) :=
  (List.range m.length).map (fun i =>
    (List.range m.length).map (fun j =>
      ((-1 : ℝ) ^ (i + j) * detL (minorL m j i)) / detL m))

/-- Extract a finite real matrix from a NaN-aware one, if no entry is NaN. -/
def allSome (g : List (List RCell)) : Option (List (List ℝ)) :=
  g.mapM (fun row => row.mapM id)

/-- NaN-propagating subtraction. -/
def rSub : RCell → RCell → RCell
  | some a, some b => some (a - b)
  | _, _ => none

open Classical in
/-- The idamax comparison: is `|x|` strictly greater than `|best|`?  Any
comparison involving a NaN is false, so a NaN candidate never replaces the
current best and a NaN best is never replaced. -/
def absGT (x best : RCell) : Bool :=
  match x, best with
  | some a, some b => decide (|b| < |a|)
  | _, _ => false

/-- idamax: scan a column left to right keeping the first entry of largest
absolute value, with the NaN-insensitive comparison `absGT`. -/
def pivotScan : RCell → ℕ → ℕ → List RCell → ℕ
  | _, bidx, _, [] => bidx
  | best, bidx, idx, x :: rest =>
      if absGT x best then pivotScan x idx (idx + 1) rest
      else pivotScan best bidx (idx + 1) rest

/-- Row interchange of partial pivoting: swap row 0 with row `i`. -/
def swapRows (rows : List (List RCell)) (i : ℕ) : List (List RCell) :=
  match rows[i]? with
  | some ri =>
      if i = 0 then rows
      else ri :: (rows.tail.set (i - 1) (rows.headD []))
  | none => rows

/-- One column of multiplier-and-update steps below the pivot row; all
arithmetic propagates NaN (in particular `0 * NaN = NaN`, as for
floats). -/
def elimBelow (prow : List RCell) (pivot : RCell) (rows : List (List RCell)) :
    List (List RCell) :=
  rows.map (fun r =>
    List.zipWith (fun a b => rSub a (rMul (rDiv (r.headD none) pivot) b))
      r.tail prow.tail)

open Classical in
/-- Whether a cell is exactly the float 0.0 (a NaN compares unequal). -/
def cellIsZero : RCell → Bool
  | some a => decide (a = 0)
  | none => false

/-- Gaussian elimination with partial pivoting (LAPACK getrf) on a
NaN-aware matrix, reporting only whether some selected pivot is exactly
zero, which is the condition under which getrf sets info and
`np.linalg.inv` raises.  One elimination step per column; the first
argument is the remaining step count. -/
def nanElimRaisesAux : ℕ → List (List RCell) → Bool
  | 0, _ => false
  | k + 1, rows =>
      let col0 := rows.map (fun r => r.headD none)
      let rows2 := swapRows rows (pivotScan (col0.headD none) 0 1 col0.tail)
      let prow := rows2.headD []
      let pivot := prow.headD none
      if cellIsZero pivot then true
      else nanElimRaisesAux k (elimBelow prow pivot rows2.tail)

/-- Whether the pivoted elimination on `g` meets an exact zero pivot. -/
def nanElimRaises (g : List (List RCell)) : Bool := nanElimRaisesAux g.length g

/-- Errors raised by the computation: `np.linalg.LinAlgError` for a singular
matrix, and the contrast-builder failure for an unknown column name. -/
inductive VifError where
  | singularMatrix : VifError
  | unknownRegressor : VifError
  deriving DecidableEq

open Classical in
/-- `np.linalg.inv` on a NaN-aware matrix.  A finite matrix raises the
singular-matrix error exactly when its determinant is zero, and otherwise
yields its inverse.  A matrix containing a NaN raises exactly when the
pivoted elimination `nanElimRaises` meets an exact zero pivot (a NaN pivot
is not equal to 0.0 and does not set info); otherwise the NaN reaches the
pivots and, through `0 * NaN = NaN`, every component of the solve, so the
result is an all-NaN matrix returned without raising. -/
def invRCell (g : List (List RCell)) : Except VifError (List (List RCell)) :=
  match allSome g with
  | none =>
      if nanElimRaises g then .error .singularMatrix
      else .ok (g.map (fun row => row.map (fun _ => (none : RCell))))
  | some m =>
      if detL m = 0 then .error .singularMatrix
      else .ok ((invL m).map (fun row => row.map (fun x => (some x : RCell))))

/-- A contrast expression, abstracted as a linear combination: a list of
(coefficient, column-name) terms.  The string `A - B` corresponds to
`[(1, A), (-1, B)]`. -/
abbrev ContrastExpr := List (ℚ × String)

/-- Modelled from the spec: the external Contrast Vector Builder
(`expression_to_contrast_vector`, imported from nilearn and not part of
src/).  Per the section-4.2 contract it turns an expression into a numeric
vector aligned one-to-one with the supplied (post-preprocessing) column
order, and fails when the expression references a name absent from those
columns. -/
def expression_to_contrast_vector (e : ContrastExpr) (names : List String) :
    Except VifError (List ℚ) :=
  if e.all (fun t => names.contains t.2) then
    .ok (names.map (fun nm => ((e.filter (fun t => decide (t.2 = nm))).map Prod.fst).sum))
  else .error .unknownRegressor

/-- The quadratic form `c @ M @ c` with NaN propagation. -/
def quadForm (c : List ℚ) (M : List (List RCell)) : RCell :=
  rSum ((List.zip c M).map (fun p =>
    rSum ((List.zip p.2 c).map (fun q =>
      rMul (some ((p.1 : ℝ))) (rMul q.1 (some ((q.2 : ℝ))))))))

/-- The loop body of lines 28-48, iterated over the contrasts in order:
build the contrast vector, invert `G` (inside the loop, as in the source),
form the true variance, invert the off-diagonal-zeroed matrix, form the
best-case variance, and record the ratio. -/
def vifLoop (names : List String) (cols : List (List RCell)) :
    List (String × ContrastExpr) → Except VifError (List (String × RCell))
  | [] => .ok []
  | (nm, e) :: rest => do
      let c ← expression_to_contrast_vector e names
      let iG ← invRCell (gram cols)
      let tv := quadForm c iG
      let iD ← invRCell (zeroOffDiag (gram cols))
      let bv := quadForm c iD
      let out ← vifLoop names cols rest
      pure ((nm, rDiv tv bv) :: out)

/-- The whole function `est_contrast_vifs` of src/vif_contrasts.py. -/
def est_contrast_vifs (d : DesignMatrix)
    (contrasts : List (String × ContrastExpr)) :
    Except VifError (List (String × RCell)) :=
  let sd := standardize d
  vifLoop (sd.map Prod.fst) (sd.map Prod.snd) contrasts

/-- Loop of the spec's hoisted form: the two inverses are given once. -/
def hoistedLoop (names : List String) (iG iD : List (List RCell)) :
    List (String × ContrastExpr) → Except VifError (List (String × RCell))
  | [] => .ok []
  | (nm, e) :: rest => do
      let c ← expression_to_contrast_vector e names
      let out ← hoistedLoop names iG iD rest
      pure ((nm, rDiv (quadForm c iG) (quadForm c iD)) :: out)

/-- The spec's required once-and-reuse form (section 4.3 design note):
`G` and `D` are inverted once, before the per-contrast loop, and the two
inverses are reused for every contrast. -/
def est_contrast_vifs_hoisted (d : DesignMatrix)
    (contrasts : List (String × ContrastExpr)) :
    Except VifError (List (String × RCell)) :=
  let sd := standardize d
  let cols := sd.map Prod.snd
  do
    let iG ← invRCell (gram cols)
    let iD ← invRCell (zeroOffDiag (gram cols))
    hoistedLoop (sd.map Prod.fst) iG iD contrasts

/-- The p-by-p identity matrix over NaN-aware cells. -/
def idMatrixR (p : ℕ) : List (List RCell) :=
  (List.range p).map (fun i =>
    (List.range p).map (fun j => if i = j then (some 1 : RCell) else some 0))

/-- Skip-NaN mean of a standardized column (pandas `mean()`). -/
def rMean (l : List RCell) : RCell :=
  if (l.filterMap id).length = 0 then none
  else some ((l.filterMap id).sum / ((l.filterMap id).length : ℝ))

/-- Skip-NaN sum of squared deviations of a standardized column. -/
def rSSD (l : List RCell) : RCell :=
  match rMean l with
  | none => none
  | some m => some (((l.filterMap id).map (fun x => (x - m) ^ 2)).sum)

/-- Build a column with no missing entries from a list of rationals. -/
def mkCol (q : List ℚ) : List Cell := q.map some

/-- A 4-sample, 1-column design matrix. -/
def colA : List Cell := mkCol [1, 1, -1, -1]

/-- Design matrix with the single column `A`. -/
def dA : DesignMatrix := ⟨4, [("A", colA)]⟩

/-- Two contrasts on `A`, supplied in the order `c2`, `c1`. -/
def csA : List (String × ContrastExpr) :=
  [("c2", [((1 : ℚ), "A")]), ("c1", [((2 : ℚ), "A")])]

/-- First column of the 6-sample two-regressor example. -/
def colA6 : List Cell := mkCol [1, 1, -1, -1, 0, 0]

/-- Second column of the 6-sample two-regressor example; after
standardization its correlation with the first is 1/2. -/
def colB6 : List Cell := mkCol [1, 0, 0, -1, 1, -1]

/-- 6-sample design matrix whose standardized columns have correlation 1/2. -/
def d6 : DesignMatrix := ⟨6, [("A", colA6), ("B", colB6)]⟩

/-- The single contrast `A - B`. -/
def cs6 : List (String × ContrastExpr) :=
  [("AvB", [((1 : ℚ), "A"), ((-1 : ℚ), "B")])]

/-- 4-sample design matrix with two identical columns (correlation 1). -/
def d4 : DesignMatrix := ⟨4, [("A", colA), ("B", colA)]⟩

/-- Design matrix with one retained degenerate column: constant non-missing
values plus a missing entry, so its standardization divisor is zero. -/
def dDeg : DesignMatrix := ⟨3, [("A", [some 5, some 5, none])]⟩

/-- A single contrast on the degenerate column. -/
def csDeg : List (String × ContrastExpr) := [("a", [((1 : ℚ), "A")])]

/-- Design matrix with a retained column that has a missing entry and two
distinct present values. -/
def dC2 : DesignMatrix := ⟨3, [("A", [some 1, some 2, none])]⟩

/-- Design matrix whose only column is constant with no missing entries, so
preprocessing drops every column. -/
def dK : DesignMatrix := ⟨2, [("A", mkCol [1, 1])]⟩

/-- A small non-degenerate design matrix. -/
def dBad : DesignMatrix := ⟨2, [("A", mkCol [1, 2])]⟩

/-- A contrast referencing a column name absent from the design matrix. -/
def csBad : List (String × ContrastExpr) := [("bad", [((1 : ℚ), "Z")])]

/-- A degenerate column with three identical present values and a missing
entry, retained with a zero standardization divisor. -/
def colC4 : List Cell := [some 5, some 5, some 5, none]

/-- Design matrix with two identical finite columns ahead of a degenerate
NaN column: its NaN-filled cross-product matrix makes the pivoted
elimination meet an exact zero pivot, so the inversion raises. -/
def dRev : DesignMatrix := ⟨4, [("A", colA), ("B", colA), ("C", colC4)]⟩

/-- A single contrast on the first column of `dRev`. -/
def csRev : List (String × ContrastExpr) := [("a", [((1 : ℚ), "A")])]

end

/-! ## General lemmas about the embedding -/

lemma exBind_ok {α β : Type} (a : α) (f : α → Except VifError β) :
    ((Except.ok a : Except VifError α) >>= f) = f a := rfl

lemma exBind_err {α β : Type} (er : VifError) (f : α → Except VifError β) :
    ((Except.error er : Except VifError α) >>= f) = Except.error er := rfl

lemma exPure {α : Type} (a : α) : (pure a : Except VifError α) = Except.ok a := rfl

lemma sqrt_mul_sqrt_eq (a b c : ℝ) (ha : 0 ≤ a) (hc : 0 ≤ c) (h : a * b = c ^ 2) :
    Real.sqrt a * Real.sqrt b = c := by
  rw [← Real.sqrt_mul ha, h, Real.sqrt_sq hc]

lemma vifLoop_cons (names : List String) (cols : List (List RCell))
    (nm : String) (e : ContrastExpr) (rest : List (String × ContrastExpr)) :
    vifLoop names cols ((nm, e) :: rest) =
      (expression_to_contrast_vector e names) >>= (fun c =>
        (invRCell (gram cols)) >>= (fun iG =>
          (invRCell (zeroOffDiag (gram cols))) >>= (fun iD =>
            (vifLoop names cols rest) >>= (fun out =>
              Except.ok ((nm, rDiv (quadForm c iG) (quadForm c iD)) :: out))))) := rfl

lemma vifLoop_ok_names (names : List String) (cols : List (List RCell))
    (cs : List (String × ContrastExpr)) (vs : List (String × RCell))
    (h : vifLoop names cols cs = .ok vs) : vs.map Prod.fst = cs.map Prod.fst := by
  induction cs generalizing vs with
  | nil =>
      rw [vifLoop] at h
      cases h
      rfl
  | cons p rest ih =>
      obtain ⟨nm, e⟩ := p
      rw [vifLoop_cons] at h
      cases hb : expression_to_contrast_vector e names with
      | error er => rw [hb, exBind_err] at h; cases h
      | ok c =>
      rw [hb, exBind_ok] at h
      cases hg : invRCell (gram cols) with
      | error er => rw [hg, exBind_err] at h; cases h
      | ok iG =>
      rw [hg, exBind_ok] at h
      cases hd : invRCell (zeroOffDiag (gram cols)) with
      | error er => rw [hd, exBind_err] at h; cases h
      | ok iD =>
      rw [hd, exBind_ok] at h
      cases hr : vifLoop names cols rest with
      | error er => rw [hr, exBind_err] at h; cases h
      | ok out =>
      rw [hr, exBind_ok] at h
      cases h
      show nm :: out.map Prod.fst = nm :: rest.map Prod.fst
      rw [ih out hr]

lemma builder_ok_valid (e : ContrastExpr) (names : List String) (c : List ℚ)
    (h : expression_to_contrast_vector e names = .ok c) :
    ∀ t ∈ e, t.2 ∈ names := by
  rw [expression_to_contrast_vector] at h
  by_cases hc : e.all (fun t => names.contains t.2)
  · intro t ht
    have := List.all_eq_true.mp hc t ht
    simpa using this
  · rw [if_neg hc] at h
    cases h

lemma builder_err_of_invalid (e : ContrastExpr) (names : List String)
    (h : ∃ t ∈ e, t.2 ∉ names) :
    expression_to_contrast_vector e names = .error .unknownRegressor := by
  rw [expression_to_contrast_vector]
  obtain ⟨t, ht, hmem⟩ := h
  have : ¬ (e.all (fun t => names.contains t.2) = true) := by
    intro hall
    exact hmem (by simpa using List.all_eq_true.mp hall t ht)
  rw [if_neg this]

lemma vifLoop_ok_valid (names : List String) (cols : List (List RCell))
    (cs : List (String × ContrastExpr)) (vs : List (String × RCell))
    (h : vifLoop names cols cs = .ok vs) :
    ∀ p ∈ cs, ∀ t ∈ p.2, t.2 ∈ names := by
  induction cs generalizing vs with
  | nil => intro p hp; cases hp
  | cons q rest ih =>
      obtain ⟨nm, e⟩ := q
      rw [vifLoop_cons] at h
      cases hb : expression_to_contrast_vector e names with
      | error er => rw [hb, exBind_err] at h; cases h
      | ok c =>
      rw [hb, exBind_ok] at h
      cases hg : invRCell (gram cols) with
      | error er => rw [hg, exBind_err] at h; cases h
      | ok iG =>
      rw [hg, exBind_ok] at h
      cases hd : invRCell (zeroOffDiag (gram cols)) with
      | error er => rw [hd, exBind_err] at h; cases h
      | ok iD =>
      rw [hd, exBind_ok] at h
      cases hr : vifLoop names cols rest with
      | error er => rw [hr, exBind_err] at h; cases h
      | ok out =>
      intro p hp
      cases hp with
      | head => exact builder_ok_valid e names c hb
      | tail _ hmem => exact ih out hr p hmem

lemma std_names (d : DesignMatrix) :
    (standardize d).map Prod.fst = retainedNames d := by
  simp [standardize, retainedNames, List.map_map]

lemma hoistedLoop_cons (names : List String) (iG iD : List (List RCell))
    (nm : String) (e : ContrastExpr) (rest : List (String × ContrastExpr)) :
    hoistedLoop names iG iD ((nm, e) :: rest) =
      (expression_to_contrast_vector e names) >>= (fun c =>
        (hoistedLoop names iG iD rest) >>= (fun out =>
          Except.ok ((nm, rDiv (quadForm c iG) (quadForm c iD)) :: out))) := rfl

lemma loop_eq_hoisted (names : List String) (cols : List (List RCell))
    (iG iD : List (List RCell))
    (hg : invRCell (gram cols) = .ok iG)
    (hd : invRCell (zeroOffDiag (gram cols)) = .ok iD)
    (cs : List (String × ContrastExpr)) :
    vifLoop names cols cs = hoistedLoop names iG iD cs := by
  induction cs with
  | nil => rfl
  | cons p rest ih =>
      obtain ⟨nm, e⟩ := p
      rw [vifLoop_cons, hoistedLoop_cons, hg, hd, ih]
      cases hb : expression_to_contrast_vector e names with
      | error er => rw [exBind_err, exBind_err]
      | ok c => rw [exBind_ok, exBind_ok, exBind_ok, exBind_ok]

lemma vifLoop_cons_ok_inv (names : List String) (cols : List (List RCell))
    (nm : String) (e : ContrastExpr) (rest : List (String × ContrastExpr))
    (vs : List (String × RCell))
    (h : vifLoop names cols ((nm, e) :: rest) = .ok vs) :
    ∃ iG iD, invRCell (gram cols) = .ok iG ∧
      invRCell (zeroOffDiag (gram cols)) = .ok iD := by
  rw [vifLoop_cons] at h
  cases hb : expression_to_contrast_vector e names with
  | error er => rw [hb, exBind_err] at h; cases h
  | ok c =>
  rw [hb, exBind_ok] at h
  cases hg : invRCell (gram cols) with
  | error er => rw [hg, exBind_err] at h; cases h
  | ok iG =>
  rw [hg, exBind_ok] at h
  cases hd : invRCell (zeroOffDiag (gram cols)) with
  | error er => rw [hd, exBind_err] at h; cases h
  | ok iD => exact ⟨iG, iD, rfl, rfl⟩

lemma hoisted_ok_imp (d : DesignMatrix) (cs : List (String × ContrastExpr))
    (vs : List (String × RCell))
    (h : est_contrast_vifs_hoisted d cs = .ok vs) :
    est_contrast_vifs d cs = .ok vs := by
  rw [est_contrast_vifs_hoisted] at h
  cases hg : invRCell (gram ((standardize d).map Prod.snd)) with
  | error er => rw [hg, exBind_err] at h; cases h
  | ok iG =>
  rw [hg, exBind_ok] at h
  cases hd : invRCell (zeroOffDiag (gram ((standardize d).map Prod.snd))) with
  | error er => rw [hd, exBind_err] at h; cases h
  | ok iD =>
  rw [hd, exBind_ok] at h
  rw [est_contrast_vifs, loop_eq_hoisted _ _ iG iD hg hd]
  exact h

lemma est_ok_imp_hoisted (d : DesignMatrix) (nm : String) (e : ContrastExpr)
    (rest : List (String × ContrastExpr)) (vs : List (String × RCell))
    (h : est_contrast_vifs d ((nm, e) :: rest) = .ok vs) :
    est_contrast_vifs_hoisted d ((nm, e) :: rest) = .ok vs := by
  rw [est_contrast_vifs] at h
  obtain ⟨iG, iD, hg, hd⟩ := vifLoop_cons_ok_inv _ _ _ _ _ _ h
  rw [est_contrast_vifs_hoisted, hg, exBind_ok, hd, exBind_ok,
    ← loop_eq_hoisted _ _ iG iD hg hd]
  exact h

/-! ## Retention-rule lemmas -/

lemma dedup_len_le_one (l : List ℚ) (a : ℚ) (h : ∀ x ∈ l, x = a) :
    l.dedup.length ≤ 1 := by
  by_contra hlen
  push_neg at hlen
  match hd : l.dedup, hlen' : l.dedup.length, hlen with
  | x :: y :: t, _, _ =>
      have hnd : l.dedup.Nodup := l.nodup_dedup
      rw [hd] at hnd
      have hx : x = a := h x (List.mem_dedup.mp (by rw [hd]; simp))
      have hy : y = a := h y (List.mem_dedup.mp (by rw [hd]; simp))
      simp [hx, hy] at hnd
  | [], he, hl => rw [hd] at hlen; simp at hlen
  | [x], he, hl => rw [hd] at hlen; simp at hlen

lemma mem_valsQ (col : List Cell) (x : ℚ) : x ∈ valsQ col ↔ some x ∈ col := by
  simp [valsQ]

lemma one_lt_nunique_iff (col : List Cell) :
    1 < nunique col ↔ ∃ x, some x ∈ col ∧ ∃ y, some y ∈ col ∧ x ≠ y := by
  constructor
  · intro h
    rw [nunique] at h
    match hd : (valsQ col).dedup, hl : (valsQ col).dedup.length, h with
    | x :: y :: t, _, _ =>
        have hnd : (valsQ col).dedup.Nodup := (valsQ col).nodup_dedup
        rw [hd] at hnd
        have hx : x ∈ valsQ col := List.mem_dedup.mp (by rw [hd]; simp)
        have hy : y ∈ valsQ col := List.mem_dedup.mp (by rw [hd]; simp)
        refine ⟨x, (mem_valsQ col x).mp hx, y, (mem_valsQ col y).mp hy, ?_⟩
        intro hxy
        simp [hxy] at hnd
    | [], _, _ => rw [hd] at h; simp at h
    | [z], _, _ => rw [hd] at h; simp at h
  · rintro ⟨x, hx, y, hy, hxy⟩
    by_contra hle
    push_neg at hle
    have := dedup_len_le_one (valsQ col)
    rw [nunique] at hle
    have hx' : x ∈ (valsQ col).dedup := List.mem_dedup.mpr ((mem_valsQ col x).mpr hx)
    have hy' : y ∈ (valsQ col).dedup := List.mem_dedup.mpr ((mem_valsQ col y).mpr hy)
    match hd : (valsQ col).dedup, hl : (valsQ col).dedup.length, hle with
    | [], _, _ => rw [hd] at hx'; cases hx'
    | [z], _, _ =>
        rw [hd] at hx' hy'
        simp at hx' hy'
        exact hxy (hx'.trans hy'.symm)
    | x :: y :: t, _, _ => rw [hd] at hle; simp at hle

lemma hasNull_iff (col : List Cell) : hasNull col = true ↔ none ∈ col := by
  simp [hasNull, Option.isNone_iff_eq_none]

lemma valsQ_replicate (n : ℕ) (v : ℚ) :
    valsQ (List.replicate n (some v)) = List.replicate n v := by
  induction n with
  | zero => rfl
  | succ k ih => simp [List.replicate_succ, valsQ] at ih ⊢; try exact ih

lemma retainedB_replicate (n : ℕ) (v : ℚ) :
    retainedB (List.replicate n (some v)) = false := by
  rw [retainedB]
  have h1 : nunique (List.replicate n (some v)) ≤ 1 := by
    rw [nunique, valsQ_replicate]
    exact dedup_len_le_one _ v (by simp [List.eq_of_mem_replicate])
  have h2 : hasNull (List.replicate n (some v)) = false := by
    rw [hasNull]
    simp [List.any_eq_false]
  rw [h2]
  simp
  omega

lemma est_insert_const (n : ℕ) (pre post : List (String × List Cell))
    (nm : String) (v : ℚ) (cs : List (String × ContrastExpr)) :
    est_contrast_vifs ⟨n, pre ++ (nm, List.replicate n (some v)) :: post⟩ cs =
      est_contrast_vifs ⟨n, pre ++ post⟩ cs := by
  have hdrop : dropConstant ⟨n, pre ++ (nm, List.replicate n (some v)) :: post⟩ =
      dropConstant ⟨n, pre ++ post⟩ := by
    rw [dropConstant, dropConstant]
    simp only [List.filter_append, List.filter_cons]
    rw [retainedB_replicate]
    simp
  have hstd : standardize ⟨n, pre ++ (nm, List.replicate n (some v)) :: post⟩ =
      standardize ⟨n, pre ++ post⟩ := by
    rw [standardize, standardize, hdrop]
  rw [est_contrast_vifs, est_contrast_vifs, hstd]

/-! ## List-algebra lemmas -/

lemma filterMap_id_map_some {α : Type} (l : List α) :
    (l.map some).filterMap id = l := by
  induction l with
  | nil => rfl
  | cons a t ih => simp [ih]

lemma sum_map_sub (l : List ℝ) (m : ℝ) :
    (l.map (fun x => x - m)).sum = l.sum - l.length * m := by
  induction l with
  | nil => simp
  | cons a t ih => simp [ih]; ring

lemma sum_map_div (l : List ℝ) (f : ℝ → ℝ) (D : ℝ) :
    (l.map (fun x => f x / D)).sum = (l.map f).sum / D := by
  induction l with
  | nil => simp
  | cons a t ih => simp [ih]; ring

lemma sum_sq_nonneg (l : List ℝ) (m : ℝ) :
    0 ≤ (l.map (fun x => (x - m) ^ 2)).sum := by
  apply List.sum_nonneg
  intro x hx
  obtain ⟨y, _, rfl⟩ := List.mem_map.mp hx
  positivity

lemma sum_sq_eq_zero (l : List ℝ) (m : ℝ)
    (h : (l.map (fun x => (x - m) ^ 2)).sum = 0) : ∀ x ∈ l, x = m := by
  induction l with
  | nil => intro x hx; cases hx
  | cons a t ih =>
      simp only [List.map_cons, List.sum_cons] at h
      have h1 : 0 ≤ (a - m) ^ 2 := by positivity
      have h2 : 0 ≤ (t.map (fun x => (x - m) ^ 2)).sum := sum_sq_nonneg t m
      have ha : (a - m) ^ 2 = 0 := by linarith
      have ht : (t.map (fun x => (x - m) ^ 2)).sum = 0 := by linarith
      intro x hx
      cases hx with
      | head => have := pow_eq_zero_iff (n := 2) (by norm_num) |>.mp ha; linarith
      | tail _ hmem => exact ih ht x hmem

lemma valsQ_len_no_null (col : List Cell) (h : none ∉ col) :
    (valsQ col).length = col.length := by
  induction col with
  | nil => rfl
  | cons c t ih =>
      cases c with
      | none => exact absurd (List.mem_cons_self _ _) h
      | some x =>
          simp only [valsQ, List.filterMap_cons] at ih ⊢
          simp only [id]
          simp only [List.length_cons]
          have := ih (fun hm => h (List.mem_cons_of_mem _ hm))
          simp only [valsQ] at this
          omega

lemma no_null_eq (col : List Cell) (h : none ∉ col) :
    col = (valsQ col).map some := by
  induction col with
  | nil => rfl
  | cons c t ih =>
      cases c with
      | none => exact absurd (List.mem_cons_self _ _) h
      | some x =>
          simp only [valsQ, List.filterMap_cons, id, List.map_cons]
          exact List.cons_eq_cons.mpr ⟨rfl, ih (fun hm => h (List.mem_cons_of_mem _ hm))⟩

lemma nunique_le_cnt (col : List Cell) : nunique col ≤ cnt col :=
  (List.dedup_sublist (valsQ col)).length_le

lemma hasNull_false (col : List Cell) (h : none ∉ col) : hasNull col = false := by
  rw [← Bool.not_eq_true, hasNull_iff]
  exact h

lemma retained_no_null_nunique (col : List Cell) (hret : retainedB col = true)
    (hnn : none ∉ col) : 1 < nunique col := by
  rw [retainedB, hasNull_false col hnn] at hret
  simp at hret
  exact hret

lemma colSSD_ne_zero (col : List Cell) (h : 1 < nunique col) : colSSD col ≠ 0 := by
  intro h0
  obtain ⟨x, hx, y, hy, hxy⟩ := (one_lt_nunique_iff col).mp h
  have hall := sum_sq_eq_zero (valsR col) (colMean col) h0
  have hx' : ((x : ℝ)) ∈ valsR col := by
    rw [valsR]; exact List.mem_map_of_mem (fun (q : ℚ) => ((q : ℚ) : ℝ)) ((mem_valsQ col x).mpr hx)
  have hy' : ((y : ℝ)) ∈ valsR col := by
    rw [valsR]; exact List.mem_map_of_mem (fun (q : ℚ) => ((q : ℚ) : ℝ)) ((mem_valsQ col y).mpr hy)
  have e1 := hall _ hx'
  have e2 := hall _ hy'
  apply hxy
  have : ((x : ℝ)) = ((y : ℝ)) := by rw [e1, e2]
  exact_mod_cast this

lemma colSSD_nonneg (col : List Cell) : 0 ≤ colSSD col := sum_sq_nonneg _ _

lemma stdDivisor_eq_sqrt (n : ℕ) (col : List Cell) (hc : cnt col = n) (hn : 2 ≤ n) :
    stdDivisor n col = Real.sqrt (colSSD col) := by
  rw [stdDivisor, hc]
  have hpos : (0 : ℝ) < (n : ℝ) - 1 := by
    have : (2 : ℝ) ≤ (n : ℝ) := by exact_mod_cast hn
    linarith
  rw [← Real.sqrt_mul (le_of_lt hpos)]
  congr 1
  field_simp

/-! ## Standardized-column lemmas -/

lemma stdCol_eq (n : ℕ) (col : List Cell) (h1 : 1 < cnt col) (h2 : colSSD col ≠ 0) :
    stdCol n col =
      col.map (fun c => c.map (fun x => (((x : ℚ) : ℝ) - colMean col) / stdDivisor n col)) := by
  rw [stdCol]
  apply List.map_congr_left
  intro c _
  cases c with
  | none => rfl
  | some x =>
      rw [stdCell]
      simp [h2]
      omega

lemma map_optionMap_no_null (col : List Cell) (f : ℚ → ℝ) (hnn : none ∉ col) :
    col.map (fun c => c.map f) = ((valsQ col).map f).map some := by
  induction col with
  | nil => rfl
  | cons c t ih =>
      cases c with
      | none => exact absurd (List.mem_cons_self _ _) hnn
      | some x =>
          simp only [valsQ, List.filterMap_cons, id, List.map_cons, Option.map_some]
          refine List.cons_eq_cons.mpr ⟨rfl, ?_⟩
          have := ih (fun hm => hnn (List.mem_cons_of_mem _ hm))
          simp only [valsQ] at this
          exact this

lemma stdCol_no_null (n : ℕ) (col : List Cell) (hnn : none ∉ col)
    (h1 : 1 < cnt col) (h2 : colSSD col ≠ 0) :
    stdCol n col = ((valsR col).map
      (fun v => (v - colMean col) / stdDivisor n col)).map some := by
  rw [stdCol_eq n col h1 h2]
  rw [map_optionMap_no_null col _ hnn]
  simp only [valsR, List.map_map]
  rfl

lemma rMean_map_some (l : List ℝ) :
    rMean (l.map some) = (if l.length = 0 then none
      else some (l.sum / (l.length : ℝ))) := by
  rw [rMean, filterMap_id_map_some]

lemma rSum_map_some (l : List ℝ) :
    rSum (l.map some) = some l.sum := by
  induction l with
  | nil => rfl
  | cons a t ih => simp [rSum, List.map_cons] at ih ⊢; rw [ih]; rfl

lemma dot_map_some (l1 l2 : List ℝ) :
    dotCells (l1.map some) (l2.map some) =
      some (List.zipWith (fun a b => a * b) l1 l2).sum := by
  rw [dotCells]
  have hz : List.zipWith rMul (l1.map some) (l2.map some) =
      (List.zipWith (fun a b => a * b) l1 l2).map some := by
    induction l1 generalizing l2 with
    | nil => rfl
    | cons a t ih =>
        cases l2 with
        | nil => rfl
        | cons b t2 => simp [List.zipWith_cons_cons, rMul, ih]
  rw [hz, rSum_map_some]

lemma zipWith_mul_self (l : List ℝ) :
    List.zipWith (fun a b => a * b) l l = l.map (fun x => x ^ 2) := by
  induction l with
  | nil => rfl
  | cons a t ih =>
      rw [List.zipWith_cons_cons, List.map_cons]
      refine List.cons_eq_cons.mpr ⟨by ring, ih⟩

lemma valsR_length (col : List Cell) : (valsR col).length = cnt col := by
  rw [valsR, List.length_map, cnt]

lemma sum_centered (col : List Cell) (h : cnt col ≠ 0) :
    ((valsR col).map (fun v => v - colMean col)).sum = 0 := by
  rw [sum_map_sub, valsR_length, colMean]
  have hne : ((cnt col : ℝ)) ≠ 0 := by exact_mod_cast h
  field_simp

lemma rMean_stdCol (n : ℕ) (col : List Cell) (hnn : none ∉ col)
    (h1 : 1 < cnt col) (h2 : colSSD col ≠ 0) :
    rMean (stdCol n col) = some 0 := by
  rw [stdCol_no_null n col hnn h1 h2, rMean_map_some]
  rw [List.length_map, valsR_length]
  have hcz : ¬ (cnt col = 0) := by omega
  rw [if_neg hcz]
  have hdiv : ((valsR col).map
      (fun v => (v - colMean col) / stdDivisor n col)).sum = 0 := by
    rw [sum_map_div (valsR col) (fun v => v - colMean col) (stdDivisor n col)]
    rw [sum_centered col (by omega)]
    simp
  rw [hdiv]
  simp

lemma sum_sq_scaled (col : List Cell) (n : ℕ) (hD : stdDivisor n col ^ 2 = colSSD col)
    (h2 : colSSD col ≠ 0) :
    ((valsR col).map (fun v => ((v - colMean col) / stdDivisor n col) ^ 2)).sum = 1 := by
  have hrw : (fun v => ((v - colMean col) / stdDivisor n col) ^ 2) =
      (fun v => ((v - colMean col) ^ 2) / (stdDivisor n col ^ 2)) := by
    funext v
    rw [div_pow]
  rw [hrw]
  rw [sum_map_div (valsR col) (fun v => (v - colMean col) ^ 2) (stdDivisor n col ^ 2)]
  rw [hD, ← colSSD]
  field_simp

lemma rSSD_stdCol (n : ℕ) (col : List Cell) (hnn : none ∉ col)
    (h1 : 1 < cnt col) (h2 : colSSD col ≠ 0)
    (hD : stdDivisor n col ^ 2 = colSSD col) :
    rSSD (stdCol n col) = some 1 := by
  rw [rSSD, rMean_stdCol n col hnn h1 h2]
  show some ((((stdCol n col).filterMap id).map (fun x => (x - (0 : ℝ)) ^ 2)).sum) = some 1
  rw [stdCol_no_null n col hnn h1 h2, filterMap_id_map_some, List.map_map]
  have hco : ((fun x => (x - (0 : ℝ)) ^ 2) ∘
      fun v => (v - colMean col) / stdDivisor n col) =
      (fun v => ((v - colMean col) / stdDivisor n col) ^ 2) := by
    funext v
    simp
  rw [hco, sum_sq_scaled col n hD h2]

lemma dot_stdCol_self (n : ℕ) (col : List Cell) (hnn : none ∉ col)
    (h1 : 1 < cnt col) (h2 : colSSD col ≠ 0)
    (hD : stdDivisor n col ^ 2 = colSSD col) :
    dotCells (stdCol n col) (stdCol n col) = some 1 := by
  rw [stdCol_no_null n col hnn h1 h2, dot_map_some, zipWith_mul_self, List.map_map]
  have hco : ((fun x => x ^ 2) ∘ fun v => (v - colMean col) / stdDivisor n col) =
      (fun v => ((v - colMean col) / stdDivisor n col) ^ 2) := by
    funext v
    simp
  rw [hco, sum_sq_scaled col n hD h2]

lemma rMul_comm (x y : RCell) : rMul x y = rMul y x := by
  cases x <;> cases y <;> simp [rMul, mul_comm]

lemma dotCells_comm (u v : List RCell) : dotCells u v = dotCells v u := by
  rw [dotCells, dotCells, List.zipWith_comm_of_comm rMul rMul_comm]

lemma gram_length (cols : List (List RCell)) : (gram cols).length = cols.length := by
  unfold gram
  rw [List.length_map]

lemma gram_row_length (cols : List (List RCell)) (i : ℕ) (hi : i < (gram cols).length) :
    ((gram cols)[i]).length = cols.length := by
  simp only [gram, List.getElem_map, List.length_map]

lemma gram_getElem (cols : List (List RCell)) (i j : ℕ)
    (hi : i < (gram cols).length) (hic : i < cols.length) (hjc : j < cols.length)
    (hj : j < ((gram cols)[i]).length) :
    ((gram cols)[i])[j] = dotCells cols[i] cols[j] := by
  simp only [gram, List.getElem_map]

lemma zeroOffDiag_length (g : List (List RCell)) :
    (zeroOffDiag g).length = g.length := by
  unfold zeroOffDiag
  rw [List.length_zipWith, List.length_range, min_self]

lemma zeroOffDiag_row_length (g : List (List RCell)) (i : ℕ)
    (hi : i < (zeroOffDiag g).length) (hig : i < g.length) :
    ((zeroOffDiag g)[i]).length = (g[i]).length := by
  simp only [zeroOffDiag, List.getElem_zipWith, List.length_zipWith,
    List.length_range, min_self]

lemma zeroOffDiag_getElem (g : List (List RCell)) (i j : ℕ)
    (hi : i < (zeroOffDiag g).length) (hig : i < g.length)
    (hj : j < ((zeroOffDiag g)[i]).length) (hjg : j < (g[i]).length) :
    ((zeroOffDiag g)[i])[j] =
      rMul ((g[i])[j]) (some (if i = j then (1 : ℝ) else 0)) := by
  simp only [zeroOffDiag, List.getElem_zipWith, List.getElem_range]

lemma idMatrixR_length (p : ℕ) : (idMatrixR p).length = p := by
  unfold idMatrixR
  rw [List.length_map, List.length_range]

lemma idMatrixR_row_length (p i : ℕ) (hi : i < (idMatrixR p).length) :
    ((idMatrixR p)[i]).length = p := by
  simp only [idMatrixR, List.getElem_map, List.length_map, List.length_range]

lemma idMatrixR_getElem (p i j : ℕ) (hi : i < (idMatrixR p).length)
    (hj : j < ((idMatrixR p)[i]).length) :
    ((idMatrixR p)[i])[j] =
      (if (i : ℕ) = (j : ℕ) then (some 1 : RCell) else some 0) := by
  simp only [idMatrixR, List.getElem_map, List.getElem_range]

lemma zeroOffDiag_gram_id (cols : List (List RCell))
    (hdiag : ∀ i : ℕ, (hi : i < cols.length) → dotCells cols[i] cols[i] = some 1)
    (hfin : ∀ i j : ℕ, (hi : i < cols.length) → (hj : j < cols.length) →
      ∃ r : ℝ, dotCells cols[i] cols[j] = some r) :
    zeroOffDiag (gram cols) = idMatrixR cols.length := by
  apply List.ext_getElem
  · rw [zeroOffDiag_length, gram_length, idMatrixR_length]
  intro i hi hi'
  have hig : i < (gram cols).length := by
    rw [zeroOffDiag_length] at hi
    exact hi
  have hic : i < cols.length := by
    rw [gram_length] at hig
    exact hig
  apply List.ext_getElem
  · rw [zeroOffDiag_row_length _ _ hi hig, gram_row_length, idMatrixR_row_length]
  intro j hj hj'
  have hjg : j < ((gram cols)[i]).length := by
    rw [zeroOffDiag_row_length _ _ hi hig] at hj
    exact hj
  have hjc : j < cols.length := by
    rw [gram_row_length] at hjg
    exact hjg
  rw [zeroOffDiag_getElem _ _ _ hi hig hj hjg]
  rw [idMatrixR_getElem]
  rw [gram_getElem _ _ _ hig hic hjc hjg]
  by_cases hij : i = j
  · subst hij
    simp only [if_pos rfl]
    simp only [hdiag i hic]
    simp [rMul]
  · obtain ⟨r, hr⟩ := hfin i j hic hjc
    rw [if_neg hij]
    simp only [hr]
    simp [rMul, hij]

/-! ## NaN-propagation lemmas -/


lemma rSum_none_mem (l : List RCell) (h : none ∈ l) : rSum l = none := by
  induction l with
  | nil => cases h
  | cons x t ih =>
      rw [rSum, List.foldr_cons]
      cases h with
      | head => rfl
      | tail _ hmem =>
          have := ih hmem
          rw [rSum] at this
          rw [this]
          cases x <;> rfl

lemma stdCol_degenerate (n : ℕ) (col : List Cell)
    (h : cnt col ≤ 1 ∨ colSSD col = 0) :
    stdCol n col = col.map (fun _ => none) := by
  rw [stdCol]
  apply List.map_congr_left
  intro c _
  cases c with
  | none => rfl
  | some x =>
      rw [stdCell]
      rw [if_pos h]

lemma mapM_id_none (l : List RCell) (h : none ∈ l) : l.mapM id = none := by
  induction l with
  | nil => cases h
  | cons x t ih =>
      rw [List.mapM_cons]
      cases h with
      | head => rfl
      | tail _ hmem =>
          rw [ih hmem]
          cases x <;> rfl



lemma allSome_none (g : List (List RCell)) (row : List RCell)
    (hrow : row ∈ g) (hnone : none ∈ row) : allSome g = none := by
  induction g with
  | nil => cases hrow
  | cons r t ih =>
      rw [allSome, List.mapM_cons]
      cases hrow with
      | head =>
          rw [mapM_id_none row hnone]
          rfl
      | tail _ hmem =>
          have hrec : allSome t = none := ih hmem
          rw [allSome] at hrec
          cases hr : r.mapM id with
          | none => rfl
          | some v =>
              rw [hrec]
              rfl

lemma invRCell_nan_one : invRCell [[(none : RCell)]] = .ok [[none]] := rfl

lemma quadForm_nan (c0 : ℚ) (ct : List ℚ) (M0t : List RCell)
    (Mt : List (List RCell)) :
    quadForm (c0 :: ct) ((none :: M0t) :: Mt) = none := by
  rw [quadForm]
  apply rSum_none_mem
  rw [List.zip_cons_cons, List.map_cons]
  have hinner : rSum (((none :: M0t).zip (c0 :: ct)).map (fun q =>
      rMul (some (((c0 : ℚ) : ℝ))) (rMul q.1 (some ((q.2 : ℚ) : ℝ))))) = none := by
    apply rSum_none_mem
    rw [List.zip_cons_cons, List.map_cons]
    have : rMul (some (((c0 : ℚ) : ℝ))) (rMul none (some ((c0 : ℚ) : ℝ))) = none := rfl
    rw [this]
    exact List.mem_cons_self _ _
  rw [hinner]
  exact List.mem_cons_self _ _



lemma builder_ok_of_valid (e : ContrastExpr) (names : List String)
    (h : ∀ t ∈ e, t.2 ∈ names) :
    expression_to_contrast_vector e names =
      .ok (names.map (fun nm =>
        ((e.filter (fun t => decide (t.2 = nm))).map Prod.fst).sum)) := by
  rw [expression_to_contrast_vector, if_pos]
  exact List.all_eq_true.mpr (fun t ht => by simpa using h t ht)

lemma dot_none_head (t s : List RCell) :
    dotCells (none :: t) (none :: s) = none := by
  rw [dotCells, List.zipWith_cons_cons]
  exact rSum_none_mem _ (List.mem_cons_self _ _)

lemma rDiv_none : rDiv none none = none := rfl

lemma quadForm_entry_nan (c : List ℚ) (M : List (List RCell))
    (hc : c ≠ []) (hM : 0 < M.length)
    (h0 : 0 < (M[0]).length) (hx : (M[0])[0] = none) :
    quadForm c M = none := by
  obtain ⟨c0, ct, rfl⟩ : ∃ c0 ct, c = c0 :: ct := by
    cases c with
    | nil => exact absurd rfl hc
    | cons c0 ct => exact ⟨c0, ct, rfl⟩
  obtain ⟨M0, Mt, rfl⟩ : ∃ M0 Mt, M = M0 :: Mt := by
    cases M with
    | nil => simp at hM
    | cons M0 Mt => exact ⟨M0, Mt, rfl⟩
  obtain ⟨x, xs, rfl⟩ : ∃ x xs, M0 = x :: xs := by
    cases M0 with
    | nil => simp at h0
    | cons x xs => exact ⟨x, xs, rfl⟩
  simp only [List.getElem_cons_zero] at hx
  subst hx
  exact quadForm_nan c0 ct xs Mt

lemma vifLoop_nan (names : List String) (cols : List (List RCell))
    (hGinv : invRCell (gram cols) =
      .ok ((gram cols).map (fun row => row.map (fun _ => (none : RCell)))))
    (hDinv : invRCell (zeroOffDiag (gram cols)) =
      .ok ((zeroOffDiag (gram cols)).map (fun row => row.map (fun _ => (none : RCell)))))
    (hne : 0 < cols.length)
    (hlen : names.length = cols.length)
    (cs : List (String × ContrastExpr))
    (hvalid : ∀ p ∈ cs, ∀ t ∈ p.2, t.2 ∈ names) :
    vifLoop names cols cs = .ok (cs.map (fun p => (p.1, (none : RCell)))) := by
  have hgl : 0 < (gram cols).length := by rw [gram_length]; exact hne
  have hgrl : 0 < ((gram cols)[0]).length := by
    rw [gram_row_length]; exact hne
  have hzl : 0 < (zeroOffDiag (gram cols)).length := by
    rw [zeroOffDiag_length]; exact hgl
  have hzrl : 0 < ((zeroOffDiag (gram cols))[0]).length := by
    rw [zeroOffDiag_row_length _ _ hzl hgl]; exact hgrl
  have hMg : 0 < ((gram cols).map (fun row => row.map (fun _ => (none : RCell)))).length := by
    rw [List.length_map]; exact hgl
  have hMgr : 0 < (((gram cols).map (fun row => row.map (fun _ => (none : RCell))))[0]).length := by
    simp only [List.getElem_map, List.length_map]
    exact hgrl
  have hMge : (((gram cols).map (fun row => row.map (fun _ => (none : RCell))))[0])[0] =
      (none : RCell) := by
    simp only [List.getElem_map]
  have hMz : 0 < ((zeroOffDiag (gram cols)).map
      (fun row => row.map (fun _ => (none : RCell)))).length := by
    rw [List.length_map]; exact hzl
  have hMzr : 0 < (((zeroOffDiag (gram cols)).map
      (fun row => row.map (fun _ => (none : RCell))))[0]).length := by
    simp only [List.getElem_map, List.length_map]
    exact hzrl
  have hMze : (((zeroOffDiag (gram cols)).map
      (fun row => row.map (fun _ => (none : RCell))))[0])[0] = (none : RCell) := by
    simp only [List.getElem_map]
  induction cs with
  | nil => rfl
  | cons p rest ih =>
      obtain ⟨nm, e⟩ := p
      rw [vifLoop_cons]
      rw [builder_ok_of_valid e names (hvalid (nm, e) (List.mem_cons_self _ _))]
      rw [exBind_ok]
      rw [hGinv, exBind_ok]
      rw [hDinv, exBind_ok]
      rw [ih (fun p hp => hvalid p (List.mem_cons_of_mem _ hp))]
      rw [exBind_ok]
      have hcne : names.map (fun nm =>
          ((e.filter (fun t => decide (t.2 = nm))).map Prod.fst).sum) ≠ [] := by
        intro hnil
        rw [← List.length_eq_zero, List.length_map] at hnil
        omega
      have hq1 : quadForm (names.map (fun nm =>
          ((e.filter (fun t => decide (t.2 = nm))).map Prod.fst).sum))
          ((gram cols).map (fun row => row.map (fun _ => (none : RCell)))) = none :=
        quadForm_entry_nan _ _ hcne hMg hMgr hMge
      have hq2 : quadForm (names.map (fun nm =>
          ((e.filter (fun t => decide (t.2 = nm))).map Prod.fst).sum))
          ((zeroOffDiag (gram cols)).map (fun row => row.map (fun _ => (none : RCell)))) = none :=
        quadForm_entry_nan _ _ hcne hMz hMzr hMze
      rw [hq1, hq2]
      rfl

/-! ## Small-size evaluation lemmas -/

lemma detL_nil : detL [] = 1 := by simp [detL]

lemma detL_one (a : ℝ) : detL [[a]] = a := by
  rw [detL]
  norm_num [List.range_succ, detL_nil]

lemma detL_two (a b c d : ℝ) : detL [[a, b], [c, d]] = a * d - b * c := by
  rw [detL]
  norm_num [List.range_succ, detL]
  ring

lemma invL_one (a : ℝ) : invL [[a]] = [[1 / a]] := by
  norm_num [invL, List.range_succ, minorL, detL]

lemma invL_two (a b c d : ℝ) :
    invL [[a, b], [c, d]] =
      [[d / (a * d - b * c), -b / (a * d - b * c)],
       [-c / (a * d - b * c), a / (a * d - b * c)]] := by
  norm_num [invL, List.range_succ, minorL, detL_one, detL_two]

lemma allSome_one (a : ℝ) : allSome [[some a]] = some [[a]] := by
  simp [allSome]
  rfl

lemma allSome_two (a b c d : ℝ) :
    allSome [[some a, some b], [some c, some d]] = some [[a, b], [c, d]] := by
  simp [allSome]
  rfl

lemma zeroOffDiag_one (x : RCell) : zeroOffDiag [[x]] = [[rMul x (some 1)]] := by
  norm_num [zeroOffDiag, List.range_succ]

lemma zeroOffDiag_two (x11 x12 x21 x22 : RCell) :
    zeroOffDiag [[x11, x12], [x21, x22]] =
      [[rMul x11 (some 1), rMul x12 (some 0)],
       [rMul x21 (some 0), rMul x22 (some 1)]] := by
  norm_num [zeroOffDiag, List.range_succ]

lemma quadForm_one (c1 : ℚ) (m : ℝ) :
    quadForm [c1] [[some m]] = some (c1 * (m * c1)) := by
  simp [quadForm, rSum, rMul, rAdd]

lemma quadForm_two (c1 c2 : ℚ) (m11 m12 m21 m22 : ℝ) :
    quadForm [c1, c2] [[some m11, some m12], [some m21, some m22]] =
      some (c1 * (m11 * c1) + c1 * (m12 * c2) +
        (c2 * (m21 * c1) + c2 * (m22 * c2))) := by
  simp [quadForm, rSum, rMul, rAdd]

lemma invRCell_one (a : ℝ) (h : a ≠ 0) :
    invRCell [[some a]] = .ok [[some (1 / a)]] := by
  unfold invRCell
  rw [allSome_one]
  simp only [detL_one]
  rw [if_neg h, invL_one]
  rfl

lemma invRCell_one_sing (a : ℝ) (h : a = 0) :
    invRCell [[some a]] = .error .singularMatrix := by
  unfold invRCell
  rw [allSome_one]
  simp only [detL_one]
  rw [if_pos h]

lemma invRCell_two (a b c d : ℝ) (h : a * d - b * c ≠ 0) :
    invRCell [[some a, some b], [some c, some d]] =
      .ok [[some (d / (a * d - b * c)), some (-b / (a * d - b * c))],
           [some (-c / (a * d - b * c)), some (a / (a * d - b * c))]] := by
  unfold invRCell
  rw [allSome_two]
  simp only [detL_two]
  rw [if_neg h, invL_two]
  rfl

lemma invRCell_two_sing (a b c d : ℝ) (h : a * d - b * c = 0) :
    invRCell [[some a, some b], [some c, some d]] = .error .singularMatrix := by
  unfold invRCell
  rw [allSome_two]
  simp only [detL_two]
  rw [if_pos h]

lemma gram_one (u : List RCell) : gram [u] = [[dotCells u u]] := rfl

lemma gram_two (u v : List RCell) :
    gram [u, v] = [[dotCells u u, dotCells u v], [dotCells v u, dotCells v v]] := rfl

lemma est_degenerate_single (d : DesignMatrix) (nm0 : String) (col0 : List Cell)
    (hdrop : dropConstant d = [(nm0, col0)])
    (hcnt : 2 ≤ cnt col0) (hssd : colSSD col0 = 0)
    (cs : List (String × ContrastExpr))
    (hvalid : ∀ p ∈ cs, ∀ t ∈ p.2, t.2 ∈ retainedNames d) :
    est_contrast_vifs d cs = .ok (cs.map (fun p => (p.1, (none : RCell)))) := by
  have hcol0ne : col0 ≠ [] := by
    intro h0
    rw [h0] at hcnt
    simp [cnt, valsQ] at hcnt
  obtain ⟨c0, ct0, rfl⟩ : ∃ c0 ct0, col0 = c0 :: ct0 := by
    cases col0 with
    | nil => exact absurd rfl hcol0ne
    | cons c0 ct0 => exact ⟨c0, ct0, rfl⟩
  have hu0 : stdCol d.nrows (c0 :: ct0) = none :: ct0.map (fun _ => none) := by
    rw [stdCol_degenerate d.nrows (c0 :: ct0) (Or.inr hssd)]
    rfl
  have hstd : standardize d = [(nm0, stdCol d.nrows (c0 :: ct0))] := by
    rw [standardize, hdrop]
    rfl
  have hgram : gram ((standardize d).map Prod.snd) = [[none]] := by
    rw [hstd]
    simp only [List.map_cons, List.map_nil]
    rw [gram_one, hu0, dot_none_head]
  have hGinv : invRCell (gram ((standardize d).map Prod.snd)) =
      .ok ((gram ((standardize d).map Prod.snd)).map
        (fun row => row.map (fun _ => (none : RCell)))) := by
    rw [hgram]
    exact invRCell_nan_one
  have hzod : zeroOffDiag (gram ((standardize d).map Prod.snd)) = [[none]] := by
    rw [hgram, zeroOffDiag_one]
    rfl
  have hDinv : invRCell (zeroOffDiag (gram ((standardize d).map Prod.snd))) =
      .ok ((zeroOffDiag (gram ((standardize d).map Prod.snd))).map
        (fun row => row.map (fun _ => (none : RCell)))) := by
    rw [hzod]
    exact invRCell_nan_one
  have hne : 0 < ((standardize d).map Prod.snd).length := by
    rw [hstd]
    simp
  have hlen : ((standardize d).map Prod.fst).length =
      ((standardize d).map Prod.snd).length := by
    rw [List.length_map, List.length_map]
  rw [est_contrast_vifs]
  apply vifLoop_nan _ _ hGinv hDinv hne hlen
  intro p hp t ht
  rw [std_names]
  exact hvalid p hp t ht

/-! ## Concrete standardization evaluations -/


lemma valsQ_mkCol (q : List ℚ) : valsQ (mkCol q) = q := by
  rw [valsQ, mkCol, filterMap_id_map_some]

lemma none_not_mem_mkCol (q : List ℚ) : none ∉ mkCol q := by
  rw [mkCol]
  simp

lemma cnt_mkCol (q : List ℚ) : cnt (mkCol q) = q.length := by
  rw [cnt, valsQ_mkCol]

lemma valsR_mkCol (q : List ℚ) : valsR (mkCol q) = q.map (fun (x : ℚ) => (x : ℝ)) := by
  rw [valsR, valsQ_mkCol]

lemma colMean_mkCol (q : List ℚ) :
    colMean (mkCol q) = (q.map (fun (x : ℚ) => (x : ℝ))).sum / q.length := by
  rw [colMean, valsR_mkCol, cnt_mkCol]

lemma colSSD_mkCol (q : List ℚ) :
    colSSD (mkCol q) =
      (q.map (fun (x : ℚ) => ((x : ℝ) - colMean (mkCol q)) ^ 2)).sum := by
  rw [colSSD, valsR_mkCol, List.map_map]
  rfl

lemma stdCol_mkCol (n : ℕ) (q : List ℚ) (h1 : 1 < q.length)
    (h2 : colSSD (mkCol q) ≠ 0) :
    stdCol n (mkCol q) = q.map (fun (x : ℚ) =>
      some (((x : ℝ) - colMean (mkCol q)) / stdDivisor n (mkCol q))) := by
  rw [stdCol_no_null n (mkCol q) (none_not_mem_mkCol q) (by rw [cnt_mkCol]; exact h1) h2]
  rw [valsR_mkCol, List.map_map, List.map_map]
  rfl

lemma colMean_A : colMean colA = 0 := by
  rw [colA, colMean_mkCol]
  norm_num

lemma colSSD_A : colSSD colA = 4 := by
  rw [colA, colSSD_mkCol, show colMean (mkCol [1, 1, -1, -1]) = 0 from colMean_A]
  norm_num

lemma stdDivisor_A : stdDivisor 4 colA = 2 := by
  rw [stdDivisor, colSSD_A, colA, cnt_mkCol]
  apply sqrt_mul_sqrt_eq <;> norm_num

lemma stdCol_A : stdCol 4 colA =
    [some (1 / 2), some (1 / 2), some (-(1 / 2)), some (-(1 / 2))] := by
  rw [colA, stdCol_mkCol 4 _ (by norm_num)
    (by rw [← colA, colSSD_A]; norm_num)]
  rw [← colA, colMean_A, stdDivisor_A]
  norm_num

lemma std_dA : standardize dA =
    [("A", [some (1 / 2), some (1 / 2), some (-(1 / 2)), some (-(1 / 2))])] := by
  have h : dropConstant dA = [("A", colA)] := by decide
  rw [standardize, h]
  simp only [List.map_cons, List.map_nil, show dA.nrows = 4 from rfl]
  rw [stdCol_A]

lemma std_d4 : standardize d4 =
    [("A", [some (1 / 2), some (1 / 2), some (-(1 / 2)), some (-(1 / 2))]),
     ("B", [some (1 / 2), some (1 / 2), some (-(1 / 2)), some (-(1 / 2))])] := by
  have h : dropConstant d4 = [("A", colA), ("B", colA)] := by decide
  rw [standardize, h]
  simp only [List.map_cons, List.map_nil, show d4.nrows = 4 from rfl]
  rw [stdCol_A]

lemma colMean_A6 : colMean colA6 = 0 := by
  rw [colA6, colMean_mkCol]
  norm_num

lemma colSSD_A6 : colSSD colA6 = 4 := by
  rw [colA6, colSSD_mkCol, show colMean (mkCol [1, 1, -1, -1, 0, 0]) = 0 from colMean_A6]
  norm_num

lemma stdDivisor_A6 : stdDivisor 6 colA6 = 2 := by
  rw [stdDivisor, colSSD_A6, colA6, cnt_mkCol]
  apply sqrt_mul_sqrt_eq <;> norm_num

lemma stdCol_A6 : stdCol 6 colA6 =
    [some (1 / 2), some (1 / 2), some (-(1 / 2)), some (-(1 / 2)), some 0, some 0] := by
  rw [colA6, stdCol_mkCol 6 _ (by norm_num)
    (by rw [← colA6, colSSD_A6]; norm_num)]
  rw [← colA6, colMean_A6, stdDivisor_A6]
  norm_num

lemma colMean_B6 : colMean colB6 = 0 := by
  rw [colB6, colMean_mkCol]
  norm_num

lemma colSSD_B6 : colSSD colB6 = 4 := by
  rw [colB6, colSSD_mkCol, show colMean (mkCol [1, 0, 0, -1, 1, -1]) = 0 from colMean_B6]
  norm_num

lemma stdDivisor_B6 : stdDivisor 6 colB6 = 2 := by
  rw [stdDivisor, colSSD_B6, colB6, cnt_mkCol]
  apply sqrt_mul_sqrt_eq <;> norm_num

lemma stdCol_B6 : stdCol 6 colB6 =
    [some (1 / 2), some 0, some 0, some (-(1 / 2)), some (1 / 2), some (-(1 / 2))] := by
  rw [colB6, stdCol_mkCol 6 _ (by norm_num)
    (by rw [← colB6, colSSD_B6]; norm_num)]
  rw [← colB6, colMean_B6, stdDivisor_B6]
  norm_num

lemma std_d6 : standardize d6 =
    [("A", [some (1 / 2), some (1 / 2), some (-(1 / 2)), some (-(1 / 2)), some 0, some 0]),
     ("B", [some (1 / 2), some 0, some 0, some (-(1 / 2)), some (1 / 2), some (-(1 / 2))])] := by
  have h : dropConstant d6 = [("A", colA6), ("B", colB6)] := by decide
  rw [standardize, h]
  simp only [List.map_cons, List.map_nil, show d6.nrows = 6 from rfl]
  rw [stdCol_A6, stdCol_B6]



lemma std_dDeg : standardize dDeg = [("A", [none, none, none])] := by
  have h : dropConstant dDeg = [("A", [some 5, some 5, none])] := by decide
  rw [standardize, h]
  simp only [List.map_cons, List.map_nil, show dDeg.nrows = 3 from rfl]
  rw [stdCol_degenerate 3 _ (Or.inr (by
    rw [colSSD]
    have hm : colMean [some 5, some 5, none] = 5 := by
      rw [colMean, valsR, show valsQ [some 5, some 5, none] = [5, 5] from by decide,
        show cnt [some 5, some 5, none] = 2 from by decide]
      norm_num
    rw [valsR, show valsQ [some 5, some 5, none] = [5, 5] from by decide, hm]
    norm_num))]
  rfl

lemma colMean_C2 : colMean [some 1, some 2, none] = 3 / 2 := by
  rw [colMean, valsR, show valsQ [some 1, some 2, none] = [1, 2] from by decide,
    show cnt [some 1, some 2, none] = 2 from by decide]
  norm_num

lemma colSSD_C2 : colSSD [some 1, some 2, none] = 1 / 2 := by
  rw [colSSD, valsR, show valsQ [some 1, some 2, none] = [1, 2] from by decide, colMean_C2]
  norm_num

lemma stdDivisor_C2 : stdDivisor 3 [some 1, some 2, none] = 1 := by
  rw [stdDivisor, colSSD_C2, show cnt [some 1, some 2, none] = 2 from by decide]
  apply sqrt_mul_sqrt_eq <;> norm_num

lemma std_dC2 : standardize dC2 = [("A", [some (-(1 / 2)), some (1 / 2), none])] := by
  have h : dropConstant dC2 = [("A", [some 1, some 2, none])] := by decide
  rw [standardize, h]
  simp only [List.map_cons, List.map_nil, show dC2.nrows = 3 from rfl]
  rw [stdCol_eq 3 _ (by rw [show cnt [some 1, some 2, none] = 2 from by decide]; norm_num)
    (by rw [colSSD_C2]; norm_num)]
  rw [colMean_C2, stdDivisor_C2]
  norm_num

lemma std_dK : standardize dK = [] := by
  have h : dropConstant dK = [] := by decide
  rw [standardize, h]
  rfl


/-! ## Concrete pipeline evaluations -/


lemma builder_c1A : expression_to_contrast_vector [((1 : ℚ), "A")] ["A"] = .ok [1] := by
  unfold expression_to_contrast_vector
  norm_num

lemma builder_c2A : expression_to_contrast_vector [((2 : ℚ), "A")] ["A"] = .ok [2] := by
  unfold expression_to_contrast_vector
  norm_num

lemma dot_uA : dotCells
    [some ((1 : ℝ) / 2), some (1 / 2), some (-(1 / 2)), some (-(1 / 2))]
    [some ((1 : ℝ) / 2), some (1 / 2), some (-(1 / 2)), some (-(1 / 2))] = some 1 := by
  simp [dotCells, rSum, rMul, rAdd]
  norm_num

lemma invRCell_id1 : invRCell [[some (1 : ℝ)]] = .ok [[some 1]] := by
  rw [invRCell_one 1 (by norm_num)]
  norm_num

lemma est_dA : est_contrast_vifs dA csA = .ok [("c2", some 1), ("c1", some 1)] := by
  rw [est_contrast_vifs, std_dA]
  show vifLoop ["A"] [[some ((1 : ℝ) / 2), some (1 / 2), some (-(1 / 2)), some (-(1 / 2))]] csA = _
  rw [csA, vifLoop_cons, builder_c1A, exBind_ok, gram_one, dot_uA]
  rw [invRCell_id1, exBind_ok, zeroOffDiag_one]
  rw [show rMul (some (1 : ℝ)) (some 1) = some 1 from by simp [rMul]]
  rw [invRCell_id1, exBind_ok]
  rw [vifLoop_cons, builder_c2A, exBind_ok, gram_one, dot_uA]
  rw [invRCell_id1, exBind_ok, zeroOffDiag_one]
  rw [show rMul (some (1 : ℝ)) (some 1) = some 1 from by simp [rMul]]
  rw [invRCell_id1, exBind_ok]
  rw [vifLoop, exBind_ok]
  rw [quadForm_one, quadForm_one]
  unfold rDiv
  norm_num
  rfl



lemma hoisted_dA : est_contrast_vifs_hoisted dA csA = .ok [("c2", some 1), ("c1", some 1)] := by
  unfold est_contrast_vifs_hoisted
  simp only [std_dA, List.map_cons, List.map_nil]
  rw [gram_one, dot_uA]
  rw [invRCell_id1, exBind_ok, zeroOffDiag_one]
  rw [show rMul (some (1 : ℝ)) (some 1) = some 1 from by simp [rMul]]
  rw [invRCell_id1, exBind_ok]
  rw [csA, hoistedLoop_cons, builder_c1A, exBind_ok]
  rw [hoistedLoop_cons, builder_c2A, exBind_ok]
  rw [hoistedLoop, exBind_ok, exBind_ok]
  rw [quadForm_one, quadForm_one]
  unfold rDiv
  norm_num

lemma hoisted_d4_empty : est_contrast_vifs_hoisted d4 [] = .error .singularMatrix := by
  unfold est_contrast_vifs_hoisted
  simp only [std_d4, List.map_cons, List.map_nil]
  rw [gram_two, dot_uA]
  rw [invRCell_two_sing 1 1 1 1 (by norm_num), exBind_err]

lemma est_d4_empty : est_contrast_vifs d4 [] = .ok [] := rfl

lemma est_dDeg : est_contrast_vifs dDeg csDeg = .ok [("a", none)] := by
  rw [est_contrast_vifs, std_dDeg]
  show vifLoop ["A"] [[none, none, none]] csDeg = _
  have hd : dotCells ([none, none, none] : List RCell) [none, none, none] = none := rfl
  have hinv : invRCell [[(none : RCell)]] = .ok [[none]] := invRCell_nan_one
  rw [csDeg, vifLoop_cons, builder_c1A, exBind_ok]
  rw [gram_one, hd]
  rw [zeroOffDiag_one, show rMul (none : RCell) (some (1 : ℝ)) = none from rfl]
  rw [hinv, exBind_ok, exBind_ok]
  rw [vifLoop, exBind_ok]
  rfl

lemma est_dK_empty : est_contrast_vifs dK [] = .ok [] := rfl

lemma dot_66AB : dotCells
    [some ((1 : ℝ) / 2), some (1 / 2), some (-(1 / 2)), some (-(1 / 2)), some 0, some 0]
    [some ((1 : ℝ) / 2), some 0, some 0, some (-(1 / 2)), some (1 / 2), some (-(1 / 2))] =
      some (1 / 2) := by
  simp [dotCells, rSum, rMul, rAdd]
  norm_num

lemma dot_66AA : dotCells
    [some ((1 : ℝ) / 2), some (1 / 2), some (-(1 / 2)), some (-(1 / 2)), some 0, some 0]
    [some ((1 : ℝ) / 2), some (1 / 2), some (-(1 / 2)), some (-(1 / 2)), some 0, some 0] =
      some 1 := by
  simp [dotCells, rSum, rMul, rAdd]
  norm_num

lemma dot_66BB : dotCells
    [some ((1 : ℝ) / 2), some 0, some 0, some (-(1 / 2)), some (1 / 2), some (-(1 / 2))]
    [some ((1 : ℝ) / 2), some 0, some 0, some (-(1 / 2)), some (1 / 2), some (-(1 / 2))] =
      some 1 := by
  simp [dotCells, rSum, rMul, rAdd]
  norm_num


/-! ## The raise path of the NaN-aware inversion -/


lemma absGT_one_one : absGT (some (1 : ℝ)) (some 1) = false := by
  unfold absGT
  exact decide_eq_false (by norm_num)

lemma cellIsZero_one : cellIsZero (some (1 : ℝ)) = false := by
  unfold cellIsZero
  exact decide_eq_false (by norm_num)

lemma cellIsZero_zero : cellIsZero (some (0 : ℝ)) = true := by
  unfold cellIsZero
  exact decide_eq_true (by norm_num)

lemma rDiv_one_one : rDiv (some (1 : ℝ)) (some 1) = some 1 := by
  show (if (1 : ℝ) = 0 then (none : RCell) else some ((1 : ℝ) / 1)) = some 1
  rw [if_neg (by norm_num : ¬(1 : ℝ) = 0)]
  norm_num

lemma nanElim_reviewer :
    nanElimRaises [[some (1 : ℝ), some 1, none], [some 1, some 1, none],
      [none, none, none]] = true := by
  unfold nanElimRaises
  norm_num [nanElimRaisesAux, pivotScan, swapRows, elimBelow,
    absGT_one_one, cellIsZero_one, cellIsZero_zero, rDiv_one_one,
    absGT, rSub, rMul, rDiv]



lemma colSSD_C4col : colSSD colC4 = 0 := by
  have hm : colMean colC4 = 5 := by
    rw [colMean, valsR, show valsQ colC4 = [5, 5, 5] from by decide,
      show cnt colC4 = 3 from by decide]
    norm_num
  rw [colSSD, valsR, show valsQ colC4 = [5, 5, 5] from by decide, hm]
  norm_num

lemma stdCol_C4col : stdCol 4 colC4 = [none, none, none, none] := by
  rw [stdCol_degenerate 4 colC4 (Or.inr colSSD_C4col)]
  rfl

lemma std_dRev : standardize dRev =
    [("A", [some (1 / 2), some (1 / 2), some (-(1 / 2)), some (-(1 / 2))]),
     ("B", [some (1 / 2), some (1 / 2), some (-(1 / 2)), some (-(1 / 2))]),
     ("C", [none, none, none, none])] := by
  have h : dropConstant dRev = [("A", colA), ("B", colA), ("C", colC4)] := by decide
  rw [standardize, h]
  simp only [List.map_cons, List.map_nil, show dRev.nrows = 4 from rfl]
  rw [stdCol_A, stdCol_C4col]

lemma gram_three (u v w : List RCell) :
    gram [u, v, w] =
      [[dotCells u u, dotCells u v, dotCells u w],
       [dotCells v u, dotCells v v, dotCells v w],
       [dotCells w u, dotCells w v, dotCells w w]] := rfl

lemma builder_revA : expression_to_contrast_vector [((1 : ℚ), "A")] ["A", "B", "C"] =
    .ok [1, 0, 0] := by
  unfold expression_to_contrast_vector
  norm_num [List.filter, show decide ("A" = "B") = false from rfl,
    show decide ("A" = "C") = false from rfl]

lemma est_dRev : est_contrast_vifs dRev csRev = .error .singularMatrix := by
  rw [est_contrast_vifs, std_dRev]
  show vifLoop ["A", "B", "C"]
    [[some (1 / 2), some (1 / 2), some (-(1 / 2)), some (-(1 / 2))],
     [some (1 / 2), some (1 / 2), some (-(1 / 2)), some (-(1 / 2))],
     [none, none, none, none]] csRev = _
  rw [csRev, vifLoop_cons, builder_revA, exBind_ok]
  rw [gram_three, dot_uA]
  rw [show dotCells
      [some ((1 : ℝ) / 2), some (1 / 2), some (-(1 / 2)), some (-(1 / 2))]
      [none, none, none, none] = none from rfl]
  rw [show dotCells ([none, none, none, none] : List RCell)
      [some ((1 : ℝ) / 2), some (1 / 2), some (-(1 / 2)), some (-(1 / 2))] = none from rfl]
  rw [show dotCells ([none, none, none, none] : List RCell) [none, none, none, none] =
      none from rfl]
  have hinv : invRCell [[some (1 : ℝ), some 1, none], [some 1, some 1, none],
      [none, none, none]] = .error .singularMatrix := by
    unfold invRCell
    rw [show allSome [[some (1 : ℝ), some 1, none], [some 1, some 1, none],
      [none, none, none]] = none from rfl]
    rw [nanElim_reviewer]
    rfl
  rw [hinv, exBind_err]


/-! ## Two-regressor closed form -/


lemma builder_AB : expression_to_contrast_vector
    [((1 : ℚ), "A"), ((-1 : ℚ), "B")] ["A", "B"] = .ok [1, -1] := by
  unfold expression_to_contrast_vector
  norm_num [List.filter, show decide ("B" = "A") = false from rfl,
    show decide ("A" = "B") = false from rfl]

lemma est_two_std (d : DesignMatrix) (u v : List RCell) (r : ℝ) (cn : String)
    (hstd : standardize d = [("A", u), ("B", v)])
    (hu : dotCells u u = some 1) (hv : dotCells v v = some 1)
    (huv : dotCells u v = some r) (hr : |r| < 1) :
    est_contrast_vifs d [(cn, [((1 : ℚ), "A"), ((-1 : ℚ), "B")])] =
      .ok [(cn, some (1 / (1 - r)))] := by
  have hvu : dotCells v u = some r := by rw [dotCells_comm]; exact huv
  have hdet : (1 : ℝ) * 1 - r * r ≠ 0 := by
    have h1 := abs_lt.mp hr
    nlinarith
  rw [est_contrast_vifs, hstd]
  simp only [List.map_cons, List.map_nil]
  rw [vifLoop_cons, builder_AB, exBind_ok]
  rw [gram_two, hu, hv, huv, hvu]
  rw [invRCell_two 1 r r 1 hdet, exBind_ok]
  rw [zeroOffDiag_two]
  rw [show rMul (some (1 : ℝ)) (some 1) = some 1 from by simp [rMul]]
  rw [show rMul (some r) (some (0 : ℝ)) = some 0 from by simp [rMul]]
  rw [invRCell_two 1 0 0 1 (by norm_num), exBind_ok]
  rw [vifLoop, exBind_ok]
  rw [quadForm_two, quadForm_two]
  unfold rDiv
  have h1 := abs_lt.mp hr
  have hne : (1 : ℝ) - r ≠ 0 := by nlinarith
  have hpe : (1 : ℝ) + r ≠ 0 := by nlinarith
  norm_num
  have hdet2 : (1 : ℝ) - r * r ≠ 0 := by nlinarith
  field_simp
  ring


lemma est_two_std_sing (d : DesignMatrix) (u v : List RCell) (cn : String)
    (hstd : standardize d = [("A", u), ("B", v)])
    (hu : dotCells u u = some 1) (hv : dotCells v v = some 1)
    (huv : dotCells u v = some 1) :
    est_contrast_vifs d [(cn, [((1 : ℚ), "A"), ((-1 : ℚ), "B")])] =
      .error .singularMatrix := by
  have hvu : dotCells v u = some 1 := by rw [dotCells_comm]; exact huv
  rw [est_contrast_vifs, hstd]
  simp only [List.map_cons, List.map_nil]
  rw [vifLoop_cons, builder_AB, exBind_ok]
  rw [gram_two, hu, hv, huv, hvu]
  rw [invRCell_two_sing 1 1 1 1 (by norm_num), exBind_err]


/-! ## Claim theorems -/


lemma colSSD_Deg : colSSD [some 5, some 5, none] = 0 := by
  have hm : colMean [some 5, some 5, none] = 5 := by
    rw [colMean, valsR, show valsQ [some 5, some 5, none] = [5, 5] from by decide,
      show cnt [some 5, some 5, none] = 2 from by decide]
    norm_num
  rw [colSSD, valsR, show valsQ [some 5, some 5, none] = [5, 5] from by decide, hm]
  norm_num

lemma rSSD_C2col : rSSD [some (-(1 / 2) : ℝ), some (1 / 2), none] = some (1 / 2) := by
  have hf : List.filterMap id [some (-(1 / 2) : ℝ), some (1 / 2), none] = [-(1 / 2), 1 / 2] := rfl
  have hm : rMean [some (-(1 / 2) : ℝ), some (1 / 2), none] = some 0 := by
    rw [rMean, hf]
    norm_num
  rw [rSSD, hm]
  show some ((List.map (fun x => (x - (0 : ℝ)) ^ 2)
    (List.filterMap id [some (-(1 / 2) : ℝ), some (1 / 2), none])).sum) = some (1 / 2)
  rw [hf]
  norm_num

/-- C1: for a design matrix whose preprocessing yields exactly two
standardized regressors named `A` and `B` (unit sum of squares, correlation
`r` with `|r| < 1`), `est_contrast_vifs` on the contrast `A - B` returns
`1 / (1 - r)`; at `r = 1` exactly, the call fails with the singular-matrix
error. -/
theorem C1_two_regressor_closed_form :
    (∀ (d : DesignMatrix) (u v : List RCell) (r : ℝ) (cn : String),
      standardize d = [("A", u), ("B", v)] →
      dotCells u u = some 1 → dotCells v v = some 1 →
      dotCells u v = some r → |r| < 1 →
      est_contrast_vifs d [(cn, [((1 : ℚ), "A"), ((-1 : ℚ), "B")])] =
        .ok [(cn, some (1 / (1 - r)))]) ∧
    (∀ (d : DesignMatrix) (u v : List RCell) (cn : String),
      standardize d = [("A", u), ("B", v)] →
      dotCells u u = some 1 → dotCells v v = some 1 →
      dotCells u v = some 1 →
      est_contrast_vifs d [(cn, [((1 : ℚ), "A"), ((-1 : ℚ), "B")])] =
        .error .singularMatrix) :=
  ⟨fun d u v r cn h1 h2 h3 h4 h5 => est_two_std d u v r cn h1 h2 h3 h4 h5,
   fun d u v cn h1 h2 h3 h4 => est_two_std_sing d u v cn h1 h2 h3 h4⟩

/-- Witness for C1: at correlation 1/2 the single contrast gets VIF 2, and
with two identical regressors (correlation 1) the call fails. -/
theorem C1_two_regressor_closed_form_witness :
    est_contrast_vifs d6 cs6 = .ok [("AvB", some 2)] ∧
    est_contrast_vifs d4 [("AvB", [((1 : ℚ), "A"), ((-1 : ℚ), "B")])] =
      .error .singularMatrix := by
  constructor
  · have h := C1_two_regressor_closed_form.1 d6
      [some ((1 : ℝ) / 2), some (1 / 2), some (-(1 / 2)), some (-(1 / 2)), some 0, some 0]
      [some ((1 : ℝ) / 2), some 0, some 0, some (-(1 / 2)), some (1 / 2), some (-(1 / 2))]
      (1 / 2) "AvB" std_d6 dot_66AA dot_66BB dot_66AB (by norm_num [abs_lt])
    rw [show cs6 = [("AvB", [((1 : ℚ), "A"), ((-1 : ℚ), "B")])] from rfl]
    norm_num at h
    exact h
  · exact C1_two_regressor_closed_form.2 d4
      [some ((1 : ℝ) / 2), some (1 / 2), some (-(1 / 2)), some (-(1 / 2))]
      [some ((1 : ℝ) / 2), some (1 / 2), some (-(1 / 2)), some (-(1 / 2))]
      "AvB" std_d4 dot_uA dot_uA dot_uA


/-- C2 counterexample: in the design matrix `dC2` the single column is
retained (it has a missing value and two distinct present values), yet its
standardized column has sum of squared deviations 1/2, not 1, and the
off-diagonal-zeroed matrix D is the all-NaN matrix `[[none]]`, not the
identity.  The claim fails for retained columns containing missing
values. -/
theorem C2_unit_column_counterexample :
    standardize dC2 = [("A", [some (-(1 / 2)), some (1 / 2), none])] ∧
    rSSD [some (-(1 / 2) : ℝ), some (1 / 2), none] ≠ some 1 ∧
    zeroOffDiag (gram ((standardize dC2).map Prod.snd)) ≠
      idMatrixR ((standardize dC2).length) := by
  refine ⟨std_dC2, ?_, ?_⟩
  · rw [rSSD_C2col]
    intro h
    rw [Option.some_inj] at h
    norm_num at h
  · rw [std_dC2]
    simp only [List.map_cons, List.map_nil, List.length_cons, List.length_nil]
    rw [gram_one]
    rw [show dotCells [some (-(1 / 2) : ℝ), some (1 / 2), none]
        [some (-(1 / 2)), some (1 / 2), none] = none from rfl]
    rw [zeroOffDiag_one]
    rw [show rMul (none : RCell) (some (1 : ℝ)) = none from rfl]
    rw [show idMatrixR (0 + 1) = [[some 1]] from by norm_num [idMatrixR, List.range_succ]]
    intro h
    simp at h

/-- C2 amended: for a well-formed design matrix, every retained column with
NO missing values standardizes to mean zero and sum of squared deviations
exactly 1; and when no retained column has missing values, the
off-diagonal-zeroed matrix D built from G is exactly the identity matrix of
order p. -/
theorem C2_standardization_amended :
    ∀ (d : DesignMatrix), WF d →
      (∀ (nm : String) (col : List Cell), (nm, col) ∈ dropConstant d → none ∉ col →
        rMean (stdCol d.nrows col) = some 0 ∧ rSSD (stdCol d.nrows col) = some 1) ∧
      ((∀ p ∈ dropConstant d, none ∉ p.2) →
        zeroOffDiag (gram ((standardize d).map Prod.snd)) =
          idMatrixR ((standardize d).length)) := by
  intro d hwf
  have hcore : ∀ nm col, (nm, col) ∈ dropConstant d → none ∉ col →
      (1 < cnt col ∧ colSSD col ≠ 0 ∧ stdDivisor d.nrows col ^ 2 = colSSD col) := by
    intro nm col hmem hnn
    have hret : retainedB col = true := (List.mem_filter.mp hmem).2
    have hnu : 1 < nunique col := retained_no_null_nunique col hret hnn
    have hssd : colSSD col ≠ 0 := colSSD_ne_zero col hnu
    have hcntlen : cnt col = col.length := by
      rw [cnt]
      exact valsQ_len_no_null col hnn
    have hlen : col.length = d.nrows :=
      hwf (nm, col) (List.mem_of_mem_filter hmem)
    have hcnt2 : 1 < cnt col := lt_of_lt_of_le hnu (nunique_le_cnt col)
    have hD : stdDivisor d.nrows col ^ 2 = colSSD col := by
      rw [stdDivisor_eq_sqrt d.nrows col (by rw [hcntlen, hlen]) (by omega)]
      exact Real.sq_sqrt (colSSD_nonneg col)
    exact ⟨hcnt2, hssd, hD⟩
  constructor
  · intro nm col hmem hnn
    obtain ⟨h1, h2, hD⟩ := hcore nm col hmem hnn
    exact ⟨rMean_stdCol d.nrows col hnn h1 h2, rSSD_stdCol d.nrows col hnn h1 h2 hD⟩
  · intro hall
    have hcols : (standardize d).map Prod.snd =
        (dropConstant d).map (fun p => stdCol d.nrows p.2) := by
      rw [standardize, List.map_map]
      rfl
    have hlen2 : (standardize d).length = (dropConstant d).length := by
      rw [standardize, List.length_map]
    rw [hcols, hlen2]
    have hlenc : ((dropConstant d).map (fun p => stdCol d.nrows p.2)).length =
        (dropConstant d).length := by rw [List.length_map]
    rw [show (dropConstant d).length =
      ((dropConstant d).map (fun p => stdCol d.nrows p.2)).length from hlenc.symm]
    apply zeroOffDiag_gram_id
    · intro i hi
      have him : i < ((dropConstant d).map (fun p => stdCol d.nrows p.2)).length := hi
      rw [List.length_map] at hi
      have hmem : (dropConstant d)[i] ∈ dropConstant d := List.getElem_mem _
      have hnn : none ∉ ((dropConstant d)[i]).2 := hall _ hmem
      obtain ⟨h1, h2, hD⟩ := hcore ((dropConstant d)[i]).1 ((dropConstant d)[i]).2
        (by simpa using hmem) hnn
      have hmap_i : ((dropConstant d).map (fun p => stdCol d.nrows p.2))[i] =
          stdCol d.nrows (((dropConstant d)[i]).2) := by
        simp [List.getElem_map]
      rw [hmap_i]
      exact dot_stdCol_self d.nrows _ hnn h1 h2 hD
    · intro i j hi hj
      have him : i < ((dropConstant d).map (fun p => stdCol d.nrows p.2)).length := hi
      have hjm : j < ((dropConstant d).map (fun p => stdCol d.nrows p.2)).length := hj
      rw [List.length_map] at hi hj
      have hmi : (dropConstant d)[i] ∈ dropConstant d := List.getElem_mem _
      have hmj : (dropConstant d)[j] ∈ dropConstant d := List.getElem_mem _
      have hnni : none ∉ ((dropConstant d)[i]).2 := hall _ hmi
      have hnnj : none ∉ ((dropConstant d)[j]).2 := hall _ hmj
      obtain ⟨h1i, h2i, hDi⟩ := hcore ((dropConstant d)[i]).1 ((dropConstant d)[i]).2
        (by simpa using hmi) hnni
      obtain ⟨h1j, h2j, hDj⟩ := hcore ((dropConstant d)[j]).1 ((dropConstant d)[j]).2
        (by simpa using hmj) hnnj
      have hmap_i : ((dropConstant d).map (fun p => stdCol d.nrows p.2))[i] =
          stdCol d.nrows (((dropConstant d)[i]).2) := by
        simp [List.getElem_map]
      have hmap_j : ((dropConstant d).map (fun p => stdCol d.nrows p.2))[j] =
          stdCol d.nrows (((dropConstant d)[j]).2) := by
        simp [List.getElem_map]
      rw [hmap_i, hmap_j]
      rw [stdCol_no_null d.nrows _ hnni h1i h2i, stdCol_no_null d.nrows _ hnnj h1j h2j]
      rw [dot_map_some]
      exact ⟨_, rfl⟩

/-- Witness for C2 amended: the matrix `dA` is well-formed, its single
column is retained with no missing values, standardizes to mean 0 and sum
of squares 1, and D is the 1-by-1 identity. -/
theorem C2_standardization_amended_witness :
    (rMean (stdCol dA.nrows colA) = some 0 ∧ rSSD (stdCol dA.nrows colA) = some 1) ∧
    zeroOffDiag (gram ((standardize dA).map Prod.snd)) =
      idMatrixR ((standardize dA).length) := by
  have h := C2_standardization_amended dA (by unfold WF; decide)
  exact ⟨h.1 "A" colA (by decide) (by decide), h.2 (by decide)⟩

/-- C3: a column is retained by the preprocessing exactly when it has more
than one distinct non-missing value or contains at least one missing value;
every other column is dropped before standardization. -/
theorem C3_retention_rule :
    ∀ (d : DesignMatrix) (nm : String) (col : List Cell),
      (nm, col) ∈ dropConstant d ↔
        ((nm, col) ∈ d.cols ∧
          ((∃ x, some x ∈ col ∧ ∃ y, some y ∈ col ∧ x ≠ y) ∨ none ∈ col)) := by
  intro d nm col
  rw [dropConstant, List.mem_filter]
  constructor
  · rintro ⟨hmem, hret⟩
    refine ⟨hmem, ?_⟩
    rw [retainedB, Bool.or_eq_true] at hret
    cases hret with
    | inl h =>
        left
        exact (one_lt_nunique_iff col).mp (by simpa using h)
    | inr h => right; exact (hasNull_iff col).mp h
  · rintro ⟨hmem, hcond⟩
    refine ⟨hmem, ?_⟩
    rw [retainedB, Bool.or_eq_true]
    cases hcond with
    | inl h =>
        left
        simpa using (one_lt_nunique_iff col).mpr h
    | inr h => right; exact (hasNull_iff col).mpr h

/-- C4 counterexample: on a design matrix whose retained column has a zero
standardization divisor (constant present values plus a missing entry), the
call does NOT raise an error: it silently returns a mapping whose value is
non-finite (NaN). -/
theorem C4_zero_divisor_counterexample :
    est_contrast_vifs dDeg csDeg = .ok [("a", none)] ∧
    ∀ e : VifError, est_contrast_vifs dDeg csDeg ≠ .error e := by
  refine ⟨est_dDeg, ?_⟩
  intro e h
  rw [est_dDeg] at h
  cases h

/-- C4 amended: the call does not fail on the zero divisor itself.  When
the zero-sample-variance column (at least two present entries, zero sum of
squared deviations) is the ONLY retained column, as in the counterexample,
the call raises no error for any contrasts referencing only retained names:
it silently returns the NaN value for every contrast.  (With further
retained columns the NaN-filled cross-product can additionally meet an
exact zero pivot and raise the singular-matrix error, so no error is
guaranteed either way.) -/
theorem C4_zero_divisor_amended :
    ∀ (d : DesignMatrix) (nm0 : String) (col0 : List Cell)
      (cs : List (String × ContrastExpr)),
      dropConstant d = [(nm0, col0)] → 2 ≤ cnt col0 → colSSD col0 = 0 →
      (∀ p ∈ cs, ∀ t ∈ p.2, t.2 ∈ retainedNames d) →
      est_contrast_vifs d cs = .ok (cs.map (fun p => (p.1, (none : RCell)))) :=
  fun d nm0 col0 cs h1 h2 h3 h4 => est_degenerate_single d nm0 col0 h1 h2 h3 cs h4

/-- Witness for C4 amended, at the concrete degenerate matrix. -/
theorem C4_zero_divisor_amended_witness :
    est_contrast_vifs dDeg csDeg = .ok [("a", none)] := by
  have h := C4_zero_divisor_amended dDeg "A" [some 5, some 5, none] csDeg
    (by decide) (by decide) colSSD_Deg (by decide)
  exact h

/-- C5: the call never returns a partial mapping: it either fails with an
error, or returns the full mapping with exactly the supplied contrast names
in order; and a contrast referencing a name absent from the
post-preprocessing columns forces the whole call to fail. -/
theorem C5_fail_fast :
    ∀ (d : DesignMatrix) (cs : List (String × ContrastExpr)),
      ((∃ e : VifError, est_contrast_vifs d cs = .error e) ∨
        (∃ vs, est_contrast_vifs d cs = .ok vs ∧ vs.map Prod.fst = cs.map Prod.fst)) ∧
      ((∃ p ∈ cs, ∃ t ∈ p.2, t.2 ∉ retainedNames d) →
        ∃ e : VifError, est_contrast_vifs d cs = .error e) := by
  intro d cs
  constructor
  · cases h : est_contrast_vifs d cs with
    | error e => exact Or.inl ⟨e, rfl⟩
    | ok vs =>
        right
        refine ⟨vs, rfl, ?_⟩
        rw [est_contrast_vifs] at h
        exact vifLoop_ok_names _ _ _ _ h
  · rintro ⟨p, hp, t, ht, hnot⟩
    cases h : est_contrast_vifs d cs with
    | error e => exact ⟨e, rfl⟩
    | ok vs =>
        exfalso
        apply hnot
        rw [est_contrast_vifs] at h
        have := vifLoop_ok_valid _ _ _ _ h p hp t ht
        rw [std_names] at this
        exact this

/-- Witness for C5: a contrast referencing the unknown name `Z` makes the
call fail. -/
theorem C5_fail_fast_witness :
    ∃ e : VifError, est_contrast_vifs dBad csBad = .error e := by
  apply (C5_fail_fast dBad csBad).2
  decide

/-- C6: whenever the call succeeds, the result mapping has exactly the
supplied contrast names, in the order they were supplied, for every design
matrix (hence independently of its column order). -/
theorem C6_order_preserved :
    ∀ (d : DesignMatrix) (cs : List (String × ContrastExpr))
      (vs : List (String × RCell)),
      est_contrast_vifs d cs = .ok vs → vs.map Prod.fst = cs.map Prod.fst := by
  intro d cs vs h
  rw [est_contrast_vifs] at h
  exact vifLoop_ok_names _ _ _ _ h

/-- Witness for C6: contrasts supplied in order `c2`, `c1` come back in
that order. -/
theorem C6_order_preserved_witness :
    [("c2", (some 1 : RCell)), ("c1", some 1)].map Prod.fst = csA.map Prod.fst :=
  C6_order_preserved dA csA _ est_dA

/-- C7 counterexample: on a design matrix whose every column is dropped by
preprocessing, the call with an empty contrasts mapping does NOT fail: it
returns the empty mapping. -/
theorem C7_all_dropped_counterexample :
    dropConstant dK = [] ∧ est_contrast_vifs dK [] = .ok [] :=
  ⟨by decide, est_dK_empty⟩

/-- C7 amended: when preprocessing drops every column there is no explicit
emptiness check; with an empty contrasts mapping the call returns the empty
mapping, and with a first contrast whose expression references at least one
name it fails with the unknown-regressor error (no name survives
preprocessing). -/
theorem C7_all_dropped_amended :
    ∀ (d : DesignMatrix), dropConstant d = [] →
      (est_contrast_vifs d [] = .ok []) ∧
      (∀ (nm : String) (e : ContrastExpr) (rest : List (String × ContrastExpr)),
        e ≠ [] → est_contrast_vifs d ((nm, e) :: rest) = .error .unknownRegressor) := by
  intro d hdrop
  have hstd : standardize d = [] := by
    rw [standardize, hdrop]
    rfl
  constructor
  · rfl
  · intro nm e rest hne
    rw [est_contrast_vifs, hstd]
    show vifLoop [] [] ((nm, e) :: rest) = _
    obtain ⟨t, ts, rfl⟩ : ∃ t ts, e = t :: ts := by
      cases e with
      | nil => exact absurd rfl hne
      | cons t ts => exact ⟨t, ts, rfl⟩
    rw [vifLoop_cons,
      builder_err_of_invalid (t :: ts) [] ⟨t, List.mem_cons_self _ _, by simp⟩,
      exBind_err]

/-- Witness for C7 amended, at the concrete all-constant matrix. -/
theorem C7_all_dropped_amended_witness :
    est_contrast_vifs dK [] = .ok [] ∧
    est_contrast_vifs dK [("x", [((1 : ℚ), "A")])] = .error .unknownRegressor := by
  have h := C7_all_dropped_amended dK (by decide)
  exact ⟨h.1, h.2 "x" [((1 : ℚ), "A")] [] (by simp)⟩

/-- C8: inserting an additional all-constant, no-missing column anywhere
into the design matrix leaves every successful result unchanged. -/
theorem C8_constant_column_invariance :
    ∀ (n : ℕ) (pre post : List (String × List Cell)) (nm : String) (v : ℚ)
      (cs : List (String × ContrastExpr)) (m : List (String × RCell)),
      est_contrast_vifs ⟨n, pre ++ post⟩ cs = .ok m →
      est_contrast_vifs ⟨n, pre ++ (nm, List.replicate n (some v)) :: post⟩ cs = .ok m := by
  intro n pre post nm v cs m h
  rw [est_insert_const]
  exact h

/-- Witness for C8: inserting the constant column `K` into `dA` leaves both
VIFs equal to 1. -/
theorem C8_constant_column_invariance_witness :
    est_contrast_vifs ⟨4, [("K", List.replicate 4 (some (7 : ℚ))), ("A", colA)]⟩ csA =
      .ok [("c2", some 1), ("c1", some 1)] :=
  C8_constant_column_invariance 4 [] [("A", colA)] "K" 7 csA _ est_dA

/-- C9 counterexample: the once-and-reuse (hoisted) implementation is NOT
extensionally equal to the in-loop implementation of the source: with two
identical columns and an empty contrasts mapping, the hoisted form raises
the singular-matrix error while the source returns the empty mapping. -/
theorem C9_hoisting_counterexample :
    est_contrast_vifs_hoisted d4 [] = .error .singularMatrix ∧
    est_contrast_vifs d4 [] = .ok [] ∧
    est_contrast_vifs_hoisted d4 [] ≠ est_contrast_vifs d4 [] := by
  refine ⟨hoisted_d4_empty, est_d4_empty, ?_⟩
  rw [hoisted_d4_empty, est_d4_empty]
  intro h
  cases h

/-- C9 amended: every success of the hoisted form is a success of the
in-loop source implementation with the same mapping, and conversely for
every nonempty contrasts mapping; the two can differ only in failure
behaviour, such as on an empty contrasts mapping with a singular G. -/
theorem C9_hoisting_amended :
    (∀ (d : DesignMatrix) (cs : List (String × ContrastExpr))
      (vs : List (String × RCell)),
      est_contrast_vifs_hoisted d cs = .ok vs → est_contrast_vifs d cs = .ok vs) ∧
    (∀ (d : DesignMatrix) (cs : List (String × ContrastExpr))
      (vs : List (String × RCell)),
      cs ≠ [] → est_contrast_vifs d cs = .ok vs →
        est_contrast_vifs_hoisted d cs = .ok vs) := by
  constructor
  · exact hoisted_ok_imp
  · intro d cs vs hne h
    obtain ⟨⟨nm, e⟩, rest, rfl⟩ : ∃ p rest, cs = p :: rest := by
      cases cs with
      | nil => exact absurd rfl hne
      | cons p rest => exact ⟨p, rest, rfl⟩
    exact est_ok_imp_hoisted d nm e rest vs h

/-- Witness for C9 amended: on `dA` with two contrasts both forms succeed
with the same mapping. -/
theorem C9_hoisting_amended_witness :
    est_contrast_vifs dA csA = .ok [("c2", some 1), ("c1", some 1)] ∧
    est_contrast_vifs_hoisted dA csA = .ok [("c2", some 1), ("c1", some 1)] :=
  ⟨C9_hoisting_amended.1 dA csA _ hoisted_dA,
   C9_hoisting_amended.2 dA csA _ (by decide) est_dA⟩

/-- C10: with an empty contrasts mapping the call returns the empty mapping
and raises no error, for every design matrix (in the source the contrast
vector construction and both inversions happen inside the per-contrast
loop, so nothing runs). -/
theorem C10_empty_contrasts :
    ∀ (d : DesignMatrix), est_contrast_vifs d [] = .ok [] :=
  fun _ => rfl
